import Mathlib

/-!
Verification of the uidgid identity/allocation core of this repository.

Python strings are modelled as `List Char` (`Str`), tables persisted in the
YAML files as Lean lists of records, and every stateful method of
`Users`/`Groups`/`UidGidApi` as a pure function from tables to
`Except Err (result x tables)`.  Since the source reloads the YAML file at the
start of every operation and writes it back at the end, the YAML file contents
and the in-memory `file_dict` coincide at every operation boundary, so a pure
state-passing model is faithful.  Integer-valued fields (`uid`, `gid`) are kept
as `Nat` in the record model; the source stores `str(uid)` in the YAML and
re-parses with `int(...)` on every load, which is a lossless round trip, and
renders them back with `decStr` (decimal digits) wherever the string form is
observable (`/etc/passwd` text, `delete_user` field comparison).
-/

/-- Str is the model of a Python `str`: a list of characters. -/
abbrev Str := List Char

/-- decAux renders the decimal digits of `n` most-significant first, with
structural fuel so that it evaluates by kernel reduction.  With fuel at least
`n` it agrees with the mathematical decimal expansion (see `decAux_eq_digits`). -/
def decAux : Nat → Nat → List Nat
  | 0, n => [n]
  | fuel + 1, n => if n < 10 then [n] else decAux fuel (n / 10) ++ [n % 10]

/-- decStr models Python `str(n)` for a natural number `n`: its decimal digit
characters, most significant first. -/
def decStr (n : Nat) : Str :=
  (decAux n n).map Nat.digitChar

/-- pyTrunc models the Python slice `l[:i]` where `i` may be negative
(a negative bound counts from the end of the string). -/
def pyTrunc (l : Str) (i : Int) : Str :=
  if 0 ≤ i then l.take i.toNat else l.take (l.length - i.natAbs)

/-- dropLastN models the Python slice `l[:-n]` for `n ≥ 1`. -/
def dropLastN (l : Str) (n : Nat) : Str :=
  l.take (l.length - n)

/-- pyEndsWith models Python `l.endswith(t)`. -/
def pyEndsWith (l t : Str) : Bool :=
  decide (t.length ≤ l.length) && decide (l.drop (l.length - t.length) = t)

/-- isLowerAlpha: character class `[a-z]`. -/
def isLowerAlpha (c : Char) : Bool := 'a' ≤ c && c ≤ 'z'

/-- isUbuntuTailChar: character class `[a-z0-9-]`. -/
def isUbuntuTailChar (c : Char) : Bool := isLowerAlpha c || c.isDigit || c = '-'

/-- validUbuntu models `UbuntuName.is_valid` from `types.py`: ASCII, at most 32
characters, matching `[a-z][a-z0-9-]{0,31}`. -/
def validUbuntu (l : Str) : Bool :=
  match l with
  | [] => false
  | c :: rest => isLowerAlpha c && rest.all isUbuntuTailChar && decide (l.length ≤ 32)

/-- Err models the distinct Python exception classes raised by the uidgid
modules.  `rangeErr lo hi` models the `ValueError` raised by
`RangedId.validate` (its message renders the range bounds `lo` and `hi`);
`activeTeamValueErr a ts` models the `ValueError` raised by
`_locked_get_spawn_info` (its message renders the active team `a` and the team
list `ts`); `fuelOut` is a model artifact marking exhaustion of the structural
fuel used for Python `while` loops and unbounded recursion. -/
inductive Err where
  | typeErr (msg : String)
  | valueErr (msg : String)
  | rangeErr (lo hi : Int)
  | activeTeamValueErr (active_team : Str) (teams : List Str)
  | runtimeErr (msg : String)
  | assertionErr (msg : String)
  | exceptionErr (msg : String)
  | unboundLocalErr (msg : String)
  | fuelOut
deriving DecidableEq, Repr

/-- Res is the result of a Python call that may raise. -/
abbrev Res (α : Type) := Except Err α

/-- MUState is the loop state of `make_unique` in `username.py`:
the current candidate, the counter, and the previously appended tail. -/
structure MUState where
  unique_name : Str
  counter : Nat
  tail : Option Str
deriving DecidableEq, Repr

/-- muCondB is the `while` condition of `make_unique`:
`unique_name in existing_names or len(unique_name) > max_length`. -/
def muCondB (existing : List Str) (max_length : Nat) (s : MUState) : Bool :=
  decide (s.unique_name ∈ existing) || decide (s.unique_name.length > max_length)

/-- muTruncated is the first step of the `make_unique` loop body: when the
current name is over length, re-truncate the base candidate reserving room for
the counter and a hyphen (Python slices accept the possibly negative bound). -/
def muTruncated (candidate : Str) (max_length : Nat) (s : MUState) : Str :=
  if s.unique_name.length > max_length then
    pyTrunc candidate ((max_length : Int) - (decStr s.counter).length - 1)
  else s.unique_name

/-- muStripped is the second step of the loop body: remove the previously
appended tail when the current name ends with it. -/
def muStripped (candidate : Str) (max_length : Nat) (s : MUState) : Str :=
  match s.tail with
  | none => muTruncated candidate max_length s
  | some t =>
    if t ≠ [] ∧ pyEndsWith (muTruncated candidate max_length s) t = true then
      dropLastN (muTruncated candidate max_length s) t.length
    else muTruncated candidate max_length s

/-- muBody is one iteration of the `make_unique` loop body: truncate, strip,
then append the new tail `-counter` and advance the counter. -/
def muBody (candidate : Str) (max_length : Nat) (s : MUState) : MUState :=
  ⟨muStripped candidate max_length s ++ '-' :: decStr s.counter,
   s.counter + 1, some ('-' :: decStr s.counter)⟩

/-- muRun runs the `make_unique` loop with structural fuel, returning the final
`unique_name` when the loop exits, `none` when the fuel runs out. -/
def muRun (existing : List Str) (candidate : Str) (max_length : Nat) :
    Nat → MUState → Option Str
  | 0, _ => none
  | fuel + 1, s =>
    if muCondB existing max_length s then
      muRun existing candidate max_length fuel (muBody candidate max_length s)
    else
      some s.unique_name

/-- make_unique models `make_unique` from `username.py` (with `max_length`
passed explicitly; the source default is 32): run the collision-resolution loop
and validate the result as an `UbuntuName` (which raises `ValueError` when the
loop result is not an acceptable Ubuntu name). -/
def make_unique (fuel : Nat) (candidate : Str) (existing : List Str)
    (max_length : Nat) : Res Str :=
  match muRun existing candidate max_length fuel ⟨candidate, 1, none⟩ with
  | none => .error .fuelOut
  | some nm =>
    if validUbuntu nm then .ok nm
    else .error (.valueErr ("Value is not a valid Ubuntu user or group name"))

example : make_unique 8 ("user").data [("user").data, ("user-0").data, ("user-1").data] 32
    = .ok (("user-2").data) := by rfl

/-- isPySpace: the ASCII whitespace characters matched by the Python regex
class to be replaced with a hyphen by the name squashing pipeline. -/
def isPySpace (c : Char) : Bool :=
  c = ' ' || c = '\t' || c = '\n' || c = '\r' || c = Char.ofNat 11 || c = Char.ofNat 12

/-- pyStrip models Python `str.strip()`. -/
def pyStrip (l : Str) : Str :=
  ((l.dropWhile isPySpace).reverse.dropWhile isPySpace).reverse

/-- pyLower models Python `str.lower()`. -/
def pyLower (l : Str) : Str := l.map Char.toLower

/-- isPunctRemoved: the shell/metacharacter punctuation class removed by
`UnicodeName.__new__` in `types.py`. -/
def isPunctRemoved (c : Char) : Bool :=
  c = Char.ofNat 39 || c = Char.ofNat 34 || c = Char.ofNat 96 || c = ';' || c = '(' ||
  c = ')' || c = '<' || c = '>' || c = '/' || c = Char.ofNat 92 || c = '=' || c = '%' ||
  c = '&' || c = '|' || c = '!' || c = Char.ofNat 123 || c = Char.ofNat 125 || c = '[' ||
  c = ']' || c = '#' || c = '*' || c = '~' || c = '$'

/-- sanitizeName: the metacharacter-removing substitution of `UnicodeName`. -/
def sanitizeName (l : Str) : Str := l.filter (fun c => !(isPunctRemoved c))

/-- mkUnicodeName models `UnicodeName.__new__` (and hence `StsciEzid` and
`TeamName` construction) from `types.py`: reject names of length at least 128,
then strip the metacharacter class.  Non-string inputs (a `TypeError` in the
source) cannot arise in this model because every caller passes a string. -/
def mkUnicodeName (l : Str) : Res Str :=
  if l.length ≥ 128 then .error (.valueErr ("Name is too long")) else .ok (sanitizeName l)

/-- mkUbuntuName models `UbuntuName.__new__` (and its subclasses `GroupName`
and `UserName`) from `types.py`. -/
def mkUbuntuName (l : Str) : Res Str :=
  if validUbuntu l then .ok l
  else .error (.valueErr ("Value is not a valid Ubuntu user or group name"))

/-- mkUserStatus models `UserStatus.__new__`: asserts membership in
`valid_status`. -/
def mkUserStatus (s : Str) : Res Str :=
  if s = ("active").data ∨ s = ("deactivated").data then .ok s
  else .error (.assertionErr ("Invalid status"))

/-- mkUserType models `UserType.__new__`: asserts membership in `valid_type`. -/
def mkUserType (s : Str) : Res Str :=
  if s = ("individual").data ∨ s = ("group").data ∨ s = ("None").data then .ok s
  else .error (.assertionErr ("Invalid user type"))

/-- isHexLower: character class `[0-9a-f]`. -/
def isHexLower (c : Char) : Bool := c.isDigit || ('a' ≤ c && c ≤ 'f')

/-- isLowerAlnum: character class `[0-9a-z]`. -/
def isLowerAlnum (c : Char) : Bool := c.isDigit || isLowerAlpha c

/-- uuidHyphenate: the hyphenation `8-4-4-4-12` applied by `StsciUuid.__new__`
to a 32-character unhyphenated id. -/
def uuidHyphenate (u : Str) : Str :=
  u.take 8 ++ '-' :: ((u.drop 8).take 4) ++ '-' :: ((u.drop 12).take 4) ++
    '-' :: ((u.drop 16).take 4) ++ '-' :: ((u.drop 20).take 12)

/-- uuidCanonical models the anchored regex
`[0-9a-f]{8}-[0-9a-f]{4}-[0-9a-f]{4}-[0-9a-f]{4}-[0-9a-f]{12}`. -/
def uuidCanonical (u : Str) : Bool :=
  match u.splitOn '-' with
  | [p1, p2, p3, p4, p5] =>
    decide (p1.length = 8) && p1.all isHexLower && decide (p2.length = 4) &&
    p2.all isHexLower && decide (p3.length = 4) && p3.all isHexLower &&
    decide (p4.length = 4) && p4.all isHexLower && decide (p5.length = 12) &&
    p5.all isHexLower
  | _ => false

/-- mkStsciUuid models `StsciUuid.__new__` from `types.py`: strip and
lowercase, hyphenate a 32-character `[0-9a-z]` id, otherwise require the
hyphenated `[0-9a-f]` canonical form.  Note the unhyphenated form accepts all
lowercase letters while the hyphenated form accepts hex digits only. -/
def mkStsciUuid (s : Str) : Res Str :=
  let u := pyLower (pyStrip s)
  if u.length = 32 && u.all isLowerAlnum then .ok (uuidHyphenate u)
  else if uuidCanonical u then .ok u
  else .error (.valueErr ("Invalid UUID format."))

/-- RangedCls carries the class attributes `min_id`/`max_id` of a concrete
subclass of `RangedId` in `types.py`. -/
structure RangedCls where
  min_id : Int
  max_id : Int
deriving DecidableEq, Repr

/-- PyVal distinguishes integer from non-integer Python values for the
`isinstance(value, int)` check of `RangedId.validate`. -/
inductive PyVal where
  | pyInt (n : Int)
  | pyStr (s : Str)
  | pyNone
deriving DecidableEq, Repr

/-- RangedId_validate models `RangedId.validate`: `TypeError` for a
non-integer, the range `ValueError` outside `[min_id, max_id]`. -/
def RangedId_validate (cls : RangedCls) (v : PyVal) : Res Unit :=
  match v with
  | .pyInt n =>
    if n < cls.min_id ∨ n > cls.max_id then .error (.rangeErr cls.min_id cls.max_id)
    else .ok ()
  | _ => .error (.typeErr ("Value is not an integer"))

/-- mkRangedId models `RangedId.__new__`: validate, then carry the value. -/
def mkRangedId (cls : RangedCls) (v : PyVal) : Res PyVal := do
  RangedId_validate cls v
  .ok v

/-- SystemUid class range from `types.py`. -/
def SystemUid : RangedCls := ⟨0, 999⟩

/-- SystemGid class range from `types.py`. -/
def SystemGid : RangedCls := ⟨0, 999⟩

/-- UserUid class range from `types.py`. -/
def UserUid : RangedCls := ⟨1000, 59999⟩

/-- UserGid class range from `types.py`. -/
def UserGid : RangedCls := ⟨1000, 59999⟩

/-- GroupGid class range from `types.py`. -/
def GroupGid : RangedCls := ⟨60000, 65533⟩

/-- GroupAdminUid class range from `types.py`. -/
def GroupAdminUid : RangedCls := ⟨60000, 65533⟩

/-- mkRangedNat is `mkRangedId` specialised to the natural-number ids tracked
by the table model (every id the system stores is a nonnegative integer).  The
range test `value < min_id or value > max_id` is carried out in ℕ via
`Int.toNat`; for the nonnegative class ranges declared in `types.py` this
agrees with Python's integer comparison (`mkRangedNat_validate` below). -/
def mkRangedNat (cls : RangedCls) (v : Nat) : Res Nat :=
  if v < cls.min_id.toNat ∨ cls.max_id.toNat < v then
    .error (.rangeErr cls.min_id cls.max_id)
  else .ok v

/-- SpawnEnv packages the capabilities external to the modelled core:
`unidec` is the `unidecode` transliteration library, `freshUuid` the stream of
`uuid.uuid4()` values drawn for group-admin users, and `pfxG` the value of
`get_group_prefix()` (a lookup keyed by the `DEPLOYMENT_NAME` environment
variable, with the trailing hyphen included). -/
structure SpawnEnv where
  unidec : Str → Str
  freshUuid : Nat → Str
  pfxG : Str

/-- hasDD: does the string contain two consecutive hyphens? -/
def hasDD : Str → Bool
  | '-' :: '-' :: _ => true
  | _ :: rest => hasDD rest
  | [] => false

/-- replaceDD: one pass of Python `s.replace("--", "-")` (left-to-right,
non-overlapping). -/
def replaceDD : Str → Str
  | '-' :: '-' :: rest => '-' :: replaceDD rest
  | c :: rest => c :: replaceDD rest
  | [] => []

/-- collapseDD iterates `replaceDD` like the source's
`while "--" in valid_chars` loop, with structural fuel (each pass strictly
shrinks the string, so `length + 1` passes always reach the fixed point). -/
def collapseDD : Nat → Str → Str
  | 0, s => s
  | fuel + 1, s => if hasDD s then collapseDD fuel (replaceDD s) else s

/-- stripTrailDash removes all trailing hyphens, the effect of the source's
`while valid_chars and valid_chars.endswith("-")` loop. -/
def stripTrailDash (s : Str) : Str :=
  (s.reverse.dropWhile (fun c => c = '-')).reverse

/-- to_valid_username models `to_valid_username` from `username.py`.
The recursion that prepends a prefix when the squashed name does not start
with a letter re-enters the full pipeline (with `kind` reverting to the
default `"user"`, as in the source); since `env.unidec` is an arbitrary
external function that recursion has no a-priori bound, so it carries
structural fuel.  The `make_unique` loop fuel `2 * existing.length + 4` is
proved sufficient below (`muRun_terminates`) whenever the loop terminates at
all at this set size. -/
def to_valid_username (env : SpawnEnv) : Nat → Str → List Str → Str → Res Str
  | 0, _, _, _ => .error .fuelOut
  | fuel + 1, username, existing, kind =>
    let a1 := env.unidec username
    let a2 := a1.takeWhile (fun c => c ≠ '@')
    let a3 := (pyLower a2).map (fun c => if isPySpace c || c = '_' || c = '.' then '-' else c)
    let valid := (pyLower a3).filter (fun c => isLowerAlpha c || c.isDigit || c = '-')
    let pfx := if kind = ("user").data then ("u-").data else env.pfxG
    if !(match valid with | c :: _ => isLowerAlpha c | [] => false) then
      match mkUnicodeName (pfx ++ valid) with
      | .error e => .error e
      | .ok nn => to_valid_username env fuel nn existing (("user").data)
    else
      let collapsed := collapseDD (valid.length + 1) valid
      let nm0 := (stripTrailDash collapsed).take 32
      match make_unique (2 * existing.length + 4) nm0 existing 32 with
      | .error e => .error e
      | .ok nm =>
        if !(validUbuntu nm) then
          .error (.valueErr ("Generated name is not valid for Ubuntu."))
        else if nm ++ ['-'] = pfx ∨ nm = pfx then
          .error (.valueErr ("Generated name is a degenerate form indicating other problems."))
        else .ok nm


/-- UserRec is one entry of the user rosetta table `all_users.yaml` (the YAML
stores every field as a string; `uid`/`gid` are kept as `Nat` here because the
source converts with `str` on store and `int` on load, a lossless round trip;
`decStr` recovers the stored string form where it is observed).  The same
record type serves as the model of the `User` result object of `types.py`,
which carries exactly these fields. -/
structure UserRec where
  username : Str
  password : Str
  uid : Nat
  gid : Nat
  descr : Str
  home : Str
  shell : Str
  uuid : Str
  ezid : Str
  status : Str
  usertype : Str
deriving DecidableEq, Repr

/-- GroupRec is one entry of the group rosetta table `all_groups.yaml`, and
also the model of the `Group` result object of `types.py`. -/
structure GroupRec where
  teamname : Str
  groupname : Str
  password : Str
  gid : Nat
  grouplist : List Str
  status : Str
  usertype : Str
deriving DecidableEq, Repr

/-- all_uids models `Users.load_all_uids`. -/
def all_uids (ut : List UserRec) : List Nat := ut.map (fun r => r.uid)

/-- all_uuids models `Users.load_all_uuids`. -/
def all_uuids (ut : List UserRec) : List Str := ut.map (fun r => r.uuid)

/-- all_ezids models `Users.load_all_ezids`. -/
def all_ezids (ut : List UserRec) : List Str := ut.map (fun r => r.ezid)

/-- all_usernames models `Users.load_all_usernames`. -/
def all_usernames (ut : List UserRec) : List Str := ut.map (fun r => r.username)

/-- scanFree is the `while new_uid in self.all_uids: new_uid += 1` scan, with
structural fuel; fuel equal to the length of `used` always suffices to reach a
free id (`scanFree_spec` below). -/
def scanFree (used : List Nat) : Nat → Nat → Nat
  | 0, n => n
  | fuel + 1, n => if n ∈ used then scanFree used fuel (n + 1) else n

/-- get_new_uid models `Users.get_new_uid`: scan upward from the range minimum
for the first id not among the uids of any existing record, then construct the
ranged id (which raises when the scan ran past the range maximum).  For a
usertype other than the two expected strings the source falls off the end and
returns `None`, which the caller then crashes on; that is modelled as a
`TypeError`. -/
def get_new_uid (usertype : Str) (ut : List UserRec) : Res Nat :=
  if usertype = ("individual").data then
    mkRangedNat UserUid (scanFree (all_uids ut) (all_uids ut).length 1000)
  else if usertype = ("group").data then
    mkRangedNat GroupAdminUid (scanFree (all_uids ut) (all_uids ut).length 60000)
  else .error (.typeErr ("get_new_uid returned None"))

/-- user_exist models `Users.user_exist`. -/
def user_exist (id id_type : Str) (ut : List UserRec) : Res Bool :=
  if id_type = ("uuid").data then .ok (decide (id ∈ all_uuids ut))
  else if id_type = ("ezid").data then .ok (decide (id ∈ all_ezids ut))
  else if id_type = ("username").data then .ok (decide (id ∈ all_usernames ut))
  else .error (.valueErr ("Invalid ID type, must be uuid, ezid, or username"))

/-- get_new_username models `Users.get_new_username`; the
`existing_names or self.all_usernames` idiom falls back to the table's
usernames when the argument is absent or an empty (falsy) collection. -/
def get_new_username (env : SpawnEnv) (ezid : Str) (existing : Option (List Str))
    (ut : List UserRec) : Res Str :=
  let ex := match existing with
    | some l => if l = [] then all_usernames ut else l
    | none => all_usernames ut
  to_valid_username env 3 ezid ex (("user").data)

/-- sentinelUuid is the all-zero uuid exempted from the duplicate-uuid check. -/
def sentinelUuid : Str := ("00000000-0000-0000-0000-000000000000").data

/-- add_user models `Users.add_user` with the defaults the repository's
callers use (`password="x"`, `descr=""`, `home=None`, `shell="/bin/bash"`,
`status="active"`).  `uuid_typed`/`ezid_typed` model the source's
`type(x) != Cls` coercion guards: a caller that passes an already-typed
`StsciUuid`/`StsciEzid` (as `get_spawn_info` does) skips re-validation, while
a plain string (as the group-admin creation path does) is validated here.
The repository never passes a plain-integer uid or gid, so the corresponding
coercion guards never fire: an explicit uid/gid argument was validated by the
ranged-id constructor at the call site, and a derived one inside
`get_new_uid`/`UserGid`. -/
def add_user (env : SpawnEnv) (uuid ezid : Str) (uuid_typed ezid_typed : Bool)
    (username : Option Str) (uid gid : Option Nat) (usertype : Str)
    (existing : Option (List Str)) (ut : List UserRec) :
    Res (UserRec × List UserRec) :=
  match user_exist uuid (("uuid").data) ut with
  | .error e => .error e
  | .ok ue =>
    if ue = true ∧ uuid ≠ sentinelUuid then
      .error (.runtimeErr ("User with UUID already exists"))
    else if ezid = [] ∧ username = none then
      .error (.exceptionErr ("Please provide an ezid or username"))
    else
      match (match username with
             | none => get_new_username env ezid existing ut
             | some u => .ok u) with
      | .error e => .error e
      | .ok un0 =>
        match (match uid with
               | none => get_new_uid usertype ut
               | some u => .ok u) with
        | .error e => .error e
        | .ok uidv =>
          match (match gid with
                 | none => mkRangedNat UserGid uidv
                 | some g => .ok g) with
          | .error e => .error e
          | .ok gidv =>
            match mkUbuntuName un0 with
            | .error e => .error e
            | .ok un =>
              match (if uuid_typed then .ok uuid else mkStsciUuid uuid) with
              | .error e => .error e
              | .ok uu =>
                match (if ezid_typed then .ok ezid else mkUnicodeName ezid) with
                | .error e => .error e
                | .ok ez =>
                  match mkUserStatus (("active").data) with
                  | .error e => .error e
                  | .ok stv =>
                    match mkUserType usertype with
                    | .error e => .error e
                    | .ok tyv =>
                      let rec1 : UserRec :=
                        { username := un, password := ("x").data, uid := uidv,
                          gid := gidv, descr := [],
                          home := ("/home/").data ++ un0,
                          shell := ("/bin/bash").data, uuid := uu, ezid := ez,
                          status := stv, usertype := tyv }
                      .ok (rec1, ut ++ [rec1])

/-- userField models the dictionary access `entry[id_type]` on a user record,
in the string form the YAML stores. -/
def userField (r : UserRec) (id_type : Str) : Option Str :=
  if id_type = ("uuid").data then some r.uuid
  else if id_type = ("ezid").data then some r.ezid
  else if id_type = ("username").data then some r.username
  else if id_type = ("uid").data then some (decStr r.uid)
  else if id_type = ("gid").data then some (decStr r.gid)
  else if id_type = ("status").data then some r.status
  else if id_type = ("usertype").data then some r.usertype
  else if id_type = ("home").data then some r.home
  else if id_type = ("shell").data then some r.shell
  else if id_type = ("password").data then some r.password
  else if id_type = ("descr").data then some r.descr
  else none

/-- delete_user models `Users.delete_user`: flip the status of the first
record whose `id_type` field equals `str(id)` to `deactivated` and stop; a
missing key raises `KeyError` before anything is written. -/
def delete_user (id id_type : Str) : List UserRec → Res (List UserRec)
  | [] => .ok []
  | r :: rest =>
    match userField r id_type with
    | none => .error (.exceptionErr ("KeyError"))
    | some v =>
      if v = id then .ok ({ r with status := ("deactivated").data } :: rest)
      else
        match delete_user id id_type rest with
        | .error e => .error e
        | .ok rest2 => .ok (r :: rest2)

/-- userIdPair is the typed uid/gid pair of the `User` constructor: the
uid/gid class used for re-validation depends on the record's `usertype`
(`UserUid`/`UserGid` for individuals, `GroupAdminUid`/`GroupGid` for group
admin users, raw values otherwise). -/
def userIdPair (r : UserRec) : Res (Nat × Nat) :=
  if r.usertype = ("individual").data then
    match mkRangedNat UserUid r.uid with
    | .error e => .error e
    | .ok u =>
      match mkRangedNat UserGid r.gid with
      | .error e => .error e
      | .ok g => .ok (u, g)
  else if r.usertype = ("group").data then
    match mkRangedNat GroupAdminUid r.uid with
    | .error e => .error e
    | .ok u =>
      match mkRangedNat GroupGid r.gid with
      | .error e => .error e
      | .ok g => .ok (u, g)
  else .ok (r.uid, r.gid)

/-- validUser is the `User(...)` construction performed on a matching row:
every typed field is re-validated from its stored string form. -/
def validUser (r : UserRec) : Res UserRec :=
  match mkStsciUuid r.uuid with
  | .error e => .error e
  | .ok uu =>
    match mkUnicodeName r.ezid with
    | .error e => .error e
    | .ok ez =>
      match mkUbuntuName r.username with
      | .error e => .error e
      | .ok un =>
        match userIdPair r with
        | .error e => .error e
        | .ok idp =>
          match mkUserStatus r.status with
          | .error e => .error e
          | .ok stv =>
            match mkUserType r.usertype with
            | .error e => .error e
            | .ok tyv =>
              .ok { r with uuid := uu, ezid := ez, username := un,
                           uid := idp.1, gid := idp.2, status := stv,
                           usertype := tyv }

/-- get_user_info models `Users.get_user_info`: find the first record whose
`id_type` field equals `str(id)`, build the re-validated `User` object from
it, and raise `RuntimeError` when no record matches. -/
def get_user_info (id id_type : Str) : List UserRec → Res UserRec
  | [] => .error (.runtimeErr ("User not found"))
  | r :: rest =>
    match userField r id_type with
    | none => .error (.exceptionErr ("KeyError"))
    | some v =>
      if v = id then validUser r
      else get_user_info id id_type rest

/-- passwdLine renders one `/etc/passwd` line (`TableIO.to_string` with the
`EtcPasswd` attribute list). -/
def passwdLine (r : UserRec) : Str :=
  List.intercalate [':']
    [r.username, r.password, decStr r.uid, decStr r.gid, r.descr, r.home, r.shell]

/-- get_etc_passwd_string models `Users.get_etc_passwd_string` (all records,
active or not, one colon-joined line each). -/
def get_etc_passwd_string (ut : List UserRec) : Str :=
  List.intercalate ['\n'] (ut.map passwdLine)

/-- all_gids models `Groups.load_all_gids`. -/
def all_gids (gt : List GroupRec) : List Nat := gt.map (fun r => r.gid)

/-- all_teamnames models `Groups.load_all_teamnames`. -/
def all_teamnames (gt : List GroupRec) : List Str := gt.map (fun r => r.teamname)

/-- all_groupnames models `Groups.load_all_groupnames`. -/
def all_groupnames (gt : List GroupRec) : List Str := gt.map (fun r => r.groupname)

/-- get_new_gid models `Groups.get_new_gid`, the gid analogue of
`get_new_uid`. -/
def get_new_gid (usertype : Str) (gt : List GroupRec) : Res Nat :=
  if usertype = ("individual").data then
    mkRangedNat UserGid (scanFree (all_gids gt) (all_gids gt).length 1000)
  else if usertype = ("group").data then
    mkRangedNat GroupGid (scanFree (all_gids gt) (all_gids gt).length 60000)
  else .error (.typeErr ("get_new_gid returned None"))

/-- team_exist models `Groups.team_exist`. -/
def team_exist (teamname : Str) (gt : List GroupRec) : Bool :=
  decide (teamname ∈ all_teamnames gt)

/-- group_exist models `Groups.group_exist`. -/
def group_exist (groupname : Str) (gt : List GroupRec) : Bool :=
  decide (groupname ∈ all_groupnames gt)

/-- gid_exist models `Groups.gid_exist`. -/
def gid_exist (gid : Nat) (gt : List GroupRec) : Bool :=
  decide (gid ∈ all_gids gt)

/-- get_new_groupname models `Groups.get_new_groupname`, with the same
falsy-default on `existing_names` as `get_new_username`. -/
def get_new_groupname (env : SpawnEnv) (teamname : Str) (existing : Option (List Str))
    (gt : List GroupRec) : Res Str :=
  let ex := match existing with
    | some l => if l = [] then all_groupnames gt else l
    | none => all_groupnames gt
  to_valid_username env 3 teamname ex (("group").data)

/-- create_new_group models `Groups.create_new_group` with the defaults the
repository's callers use (`password="x"`, `status="active"`).  As in
`add_user`, the repository never passes a plain-integer gid, so the
`type(gid) != Cls` coercion guards never fire: an explicit gid was validated
by its ranged-id constructor at the call site and a derived one inside
`get_new_gid`.  The explicit `groupname` argument is passed as a `GroupName`
(not exactly an `UbuntuName`), so the `type(groupname) != UbuntuName` guard
does fire and re-validates it, exactly as modelled. -/
def create_new_group (env : SpawnEnv) (teamname : Str) (groupname : Option Str)
    (gid : Option Nat) (usertype : Str) (existing : Option (List Str))
    (gt : List GroupRec) : Res (GroupRec × List GroupRec) :=
  if team_exist teamname gt then
    .error (.runtimeErr ("Team already exists."))
  else
    match (match groupname with
           | none => get_new_groupname env teamname existing gt
           | some g => .ok g) with
    | .error e => .error e
    | .ok gn0 =>
      match (match gid with
             | none => get_new_gid usertype gt
             | some g =>
               if gid_exist g gt then .error (.runtimeErr ("GID already exist."))
               else .ok g) with
      | .error e => .error e
      | .ok gidv =>
        match mkUserStatus (("active").data) with
        | .error e => .error e
        | .ok stv =>
          match mkUserType usertype with
          | .error e => .error e
          | .ok tyv =>
            match mkUbuntuName gn0 with
            | .error e => .error e
            | .ok gn =>
              let rec1 : GroupRec :=
                { teamname := teamname, groupname := gn, password := ("x").data,
                  gid := gidv, grouplist := [], status := stv, usertype := tyv }
              .ok (rec1, gt ++ [rec1])

/-- lookup_gid models `Groups.lookup_gid` with its default
`name_type="groupname"`; when no record matches, the source hits an unbound
local variable. -/
def lookup_gid (name : Str) : List GroupRec → Res Nat
  | [] => .error (.unboundLocalErr ("lookup_gid fell through"))
  | r :: rest => if r.groupname = name then .ok r.gid else lookup_gid name rest

/-- get_users_of_group models `Groups.get_users_of_group` (first record with
the given groupname; unbound local when none matches). -/
def get_users_of_group (groupname : Str) : List GroupRec → Res (List Str)
  | [] => .error (.unboundLocalErr ("get_users_of_group fell through"))
  | r :: rest => if r.groupname = groupname then .ok r.grouplist
                 else get_users_of_group groupname rest

/-- get_groups_of_user models `Groups.get_groups_of_user`: the groupnames of
every record whose grouplist contains the username. -/
def get_groups_of_user (username : Str) (gt : List GroupRec) : List Str :=
  (gt.filter (fun r => decide (username ∈ r.grouplist))).map (fun r => r.groupname)

/-- addLoop is the record-update loop of `Groups.add_user_to_group`: at the
first record with the given groupname, raise `RuntimeError` when the grouplist
already holds 32768 members, otherwise append the username unless already
present, and stop. -/
def addLoop (username groupname : Str) : List GroupRec → Res (List GroupRec)
  | [] => .ok []
  | r :: rest =>
    if r.groupname = groupname then
      if r.grouplist.length ≥ 32768 then .error (.runtimeErr ("Too many users in group."))
      else if username ∈ r.grouplist then .ok (r :: rest)
      else .ok ({ r with grouplist := r.grouplist ++ [username] } :: rest)
    else
      match addLoop username groupname rest with
      | .error e => .error e
      | .ok rest2 => .ok (r :: rest2)

/-- add_user_to_group models `Groups.add_user_to_group`: `ValueError` when the
group does not exist, else the `addLoop` update. -/
def add_user_to_group (username groupname : Str) (gt : List GroupRec) :
    Res (List GroupRec) :=
  if group_exist groupname gt then addLoop username groupname gt
  else .error (.valueErr ("Group does not exist"))

/-- removeLoop is the record-update loop of `Groups.remove_user_from_group`:
at the first record with the given groupname, remove the first occurrence of
the username when present (`list.remove`), and stop. -/
def removeLoop (username groupname : Str) : List GroupRec → List GroupRec
  | [] => []
  | r :: rest =>
    if r.groupname = groupname then
      (if username ∈ r.grouplist then { r with grouplist := r.grouplist.erase username }
       else r) :: rest
    else r :: removeLoop username groupname rest

/-- remove_user_from_group models `Groups.remove_user_from_group`: a plain
`Exception` when the group does not exist, else the `removeLoop` update. -/
def remove_user_from_group (username groupname : Str) (gt : List GroupRec) :
    Res (List GroupRec) :=
  if group_exist groupname gt then .ok (removeLoop username groupname gt)
  else .error (.exceptionErr ("Group does not exist"))

/-- groupField models the dictionary access `entry[id_type]` on a group
record for the scalar string fields (the repository only ever selects by
`groupname` or `teamname`). -/
def groupField (r : GroupRec) (id_type : Str) : Option Str :=
  if id_type = ("teamname").data then some r.teamname
  else if id_type = ("groupname").data then some r.groupname
  else if id_type = ("gid").data then some (decStr r.gid)
  else if id_type = ("status").data then some r.status
  else if id_type = ("usertype").data then some r.usertype
  else if id_type = ("password").data then some r.password
  else none

/-- get_group_info models `Groups.get_group_info`: find the first record whose
`id_type` field equals `str(id)`, re-validate the typed fields from their
stored form, and return the `Group` object; `RuntimeError` when no record
matches. -/
def get_group_info (id id_type : Str) : List GroupRec → Res GroupRec
  | [] => .error (.runtimeErr ("Group does not exist."))
  | r :: rest =>
    match groupField r id_type with
    | none => .error (.exceptionErr ("KeyError"))
    | some v =>
      if v = id then
        match mkUnicodeName r.teamname with
        | .error e => .error e
        | .ok tn =>
          match mkUbuntuName r.groupname with
          | .error e => .error e
          | .ok gn =>
            match (if r.usertype = ("individual").data then mkRangedNat UserGid r.gid
                   else if r.usertype = ("group").data then mkRangedNat GroupGid r.gid
                   else .ok r.gid) with
            | .error e => .error e
            | .ok gidv =>
              match mkUserStatus r.status with
              | .error e => .error e
              | .ok stv =>
                match mkUserType r.usertype with
                | .error e => .error e
                | .ok tyv =>
                  .ok { r with teamname := tn, groupname := gn, gid := gidv,
                               status := stv, usertype := tyv }
      else get_group_info id id_type rest

/-- groupLine renders one `/etc/group` line (`TableIO.to_string` with the
`EtcGroup` attribute list; the grouplist renders comma-joined). -/
def groupLine (r : GroupRec) : Str :=
  List.intercalate [':']
    [r.groupname, r.password, decStr r.gid, List.intercalate [','] r.grouplist]

/-- get_etc_group_string models `Groups.get_etc_group_string`. -/
def get_etc_group_string (gt : List GroupRec) : Str :=
  List.intercalate ['\n'] (gt.map groupLine)

/-- St is the persistent state `get_spawn_info` operates on: the two rosetta
tables plus the position in the fresh-uuid stream (`uuid.uuid4()` draws for
group-admin users).  The file lock, the log, and the filesystem side effects
(`create_home_directory`, `create_group_directory`, the rosetta backups) touch
neither table, so they do not appear in the state. -/
structure St where
  users : List UserRec
  groups : List GroupRec
  fresh : Nat
deriving DecidableEq, Repr

/-- SpawnInfo models the `SpawnInfo` dataclass of `types.py`. -/
structure SpawnInfo where
  uid : Nat
  gid : Nat
  all_user_gids : List Nat
  username : Str
  groupname : Str
  etc_passwd : Str
  etc_group : Str
deriving DecidableEq, Repr

/-- all_names models the `UidGidApi.all_names` property.  The source builds a
Python set of all usernames and groupnames; only membership in the collection
is ever observed (by `make_unique`), so the list concatenation is an
observationally faithful model of the set union. -/
def all_names (st : St) : List Str :=
  all_usernames st.users ++ all_groupnames st.groups

/-- add_member models `UidGidApi.add_member`: add the user to the group, then
log the refreshed group record (the log's `get_group_info` call runs and can
raise, so it is kept, its value discarded). -/
def add_member (username groupname : Str) (st : St) : Res St :=
  match add_user_to_group username groupname st.groups with
  | .error e => .error e
  | .ok gt =>
    match get_group_info groupname (("groupname").data) gt with
    | .error e => .error e
    | .ok _ => .ok { st with groups := gt }

/-- remove_member models `UidGidApi.remove_member`. -/
def remove_member (username groupname : Str) (st : St) : Res St :=
  match remove_user_from_group username groupname st.groups with
  | .error e => .error e
  | .ok gt =>
    match get_group_info groupname (("groupname").data) gt with
    | .error e => .error e
    | .ok _ => .ok { st with groups := gt }

/-- create_or_fetch_user models `UidGidApi.create_or_fetch_user`.  On the
create path the personal group's constructor arguments are evaluated in the
Python call order: `TeamName(user.ezid)`, `GroupName(user.username)`,
`UserGid(user.uid)`, then the (recomputed) `all_names` property.
`create_home_directory` only touches the filesystem. -/
def create_or_fetch_user (env : SpawnEnv) (stsci_uuid stsci_ezid : Str) (st : St) :
    Res ((Str × Nat) × St) :=
  match user_exist stsci_uuid (("uuid").data) st.users with
  | .error e => .error e
  | .ok ue =>
    if !ue then
      match add_user env stsci_uuid stsci_ezid true true none none none
        (("individual").data) (some (all_names st)) st.users with
      | .error e => .error e
      | .ok (user, ut1) =>
        let st1 : St := { st with users := ut1 }
        match mkUnicodeName user.ezid with
        | .error e => .error e
        | .ok tn =>
          match mkUbuntuName user.username with
          | .error e => .error e
          | .ok gn =>
            match mkRangedNat UserGid user.uid with
            | .error e => .error e
            | .ok pgid =>
              match create_new_group env tn (some gn) (some pgid)
                (("individual").data) (some (all_names st1)) st1.groups with
              | .error e => .error e
              | .ok (personal, gt1) =>
                let st2 : St := { st1 with groups := gt1 }
                match mkUbuntuName user.username with
                | .error e => .error e
                | .ok un =>
                  match add_member un personal.groupname st2 with
                  | .error e => .error e
                  | .ok st3 => .ok ((user.username, user.uid), st3)
    else
      match get_user_info stsci_uuid (("uuid").data) st.users with
      | .error e => .error e
      | .ok user =>
        match mkUbuntuName user.username with
        | .error e => .error e
        | .ok gn =>
          match get_group_info gn (("groupname").data) st.groups with
          | .error e => .error e
          | .ok _personal => .ok ((user.username, user.uid), st)

/-- create_or_fetch_group models `UidGidApi.create_or_fetch_group`.  On the
create path a fresh uuid is drawn for the admin user and the admin's uid/gid
are the `GroupAdminUid`/`GroupGid` constructions on the new group's gid; on
the fetch path the admin user is fetched (by uid) only when the group's gid
lies in the uidgid-assigned group range, and the requesting user is added to
the member list when missing.  `create_group_directory` only touches the
filesystem. -/
def create_or_fetch_group (env : SpawnEnv) (username teamname : Str) (st : St) :
    Res St :=
  if !(team_exist teamname st.groups) then
    match create_new_group env teamname none none (("group").data) none st.groups with
    | .error e => .error e
    | .ok (group, gt1) =>
      let st1 : St := { st with groups := gt1 }
      match mkRangedNat GroupAdminUid group.gid with
      | .error e => .error e
      | .ok au =>
        match mkRangedNat GroupGid group.gid with
        | .error e => .error e
        | .ok ag =>
          match add_user env (env.freshUuid st1.fresh)
            (group.groupname ++ ("-admin").data) false false none (some au)
            (some ag) (("group").data) (some (all_names st1)) st1.users with
          | .error e => .error e
          | .ok (_admin, ut1) =>
            let st2 : St := { st1 with users := ut1, fresh := st1.fresh + 1 }
            match add_member username group.groupname st2 with
            | .error e => .error e
            | .ok st3 =>
              match mkUbuntuName (group.groupname ++ ("-admin").data) with
              | .error e => .error e
              | .ok an =>
                match add_member an group.groupname st3 with
                | .error e => .error e
                | .ok st4 => .ok st4
  else
    match get_group_info teamname (("teamname").data) st.groups with
    | .error e => .error e
    | .ok group =>
      match ((if 60000 ≤ group.gid then
               match mkRangedNat GroupAdminUid group.gid with
               | .error e => .error e
               | .ok auid =>
                 match get_user_info (decStr auid) (("uid").data) st.users with
                 | .error e => .error e
                 | .ok _admin => .ok ()
             else .ok ()) : Res Unit) with
      | .error e => .error e
      | .ok _ =>
        match get_users_of_group group.groupname st.groups with
        | .error e => .error e
        | .ok members =>
          if username ∈ members then .ok st
          else add_member username group.groupname st

/-- teamnames_to_groupnames models `UidGidApi.teamnames_to_groupnames`. -/
def teamnames_to_groupnames (teamnames : List Str) (gt : List GroupRec) :
    Res (List Str) :=
  match teamnames with
  | [] => .ok []
  | t :: rest =>
    match get_group_info t (("teamname").data) gt with
    | .error e => .error e
    | .ok g =>
      match teamnames_to_groupnames rest gt with
      | .error e => .error e
      | .ok gns => .ok (g.groupname :: gns)

/-- reconcileLoop is the `for groupname in group_names` loop of
`remove_obsolete_group_memberships`: remove the user from every listed group
whose groupname is not among the requested teams' groupnames or the user's
own name. -/
def reconcileLoop (username : Str) (team_groups : List Str) :
    List Str → St → Res St
  | [], s => .ok s
  | gn :: rest, s =>
    if gn ∈ team_groups ++ [username] then reconcileLoop username team_groups rest s
    else
      match remove_member username gn s with
      | .error e => .error e
      | .ok s2 => reconcileLoop username team_groups rest s2

/-- remove_obsolete_group_memberships models
`UidGidApi.remove_obsolete_group_memberships` (doc above `reconcileLoop`). -/
def remove_obsolete_group_memberships (username : Str) (team_names : List Str)
    (st : St) : Res St :=
  match teamnames_to_groupnames team_names st.groups with
  | .error e => .error e
  | .ok team_groups =>
    reconcileLoop username team_groups (get_groups_of_user username st.groups) st

/-- teamsLoop is the `for teamname in teams` loop of
`_locked_get_spawn_info`. -/
def teamsLoop (env : SpawnEnv) (username : Str) : List Str → St → Res St
  | [], s => .ok s
  | t :: rest, s =>
    match create_or_fetch_group env username t s with
    | .error e => .error e
    | .ok s2 => teamsLoop env username rest s2

/-- preSpawn is the pre-guard phase of `_locked_get_spawn_info` (doc above
`teamsLoop`): find-or-create the user, find-or-create every requested team,
then reconcile memberships. -/
def preSpawn (env : SpawnEnv) (stsci_uuid stsci_ezid : Str) (teams : List Str)
    (st : St) : Res ((Str × Nat) × St) :=
  match create_or_fetch_user env stsci_uuid stsci_ezid st with
  | .error e => .error e
  | .ok ((username, uid), st1) =>
    match teamsLoop env username teams st1 with
    | .error e => .error e
    | .ok st2 =>
      match remove_obsolete_group_memberships username teams st2 with
      | .error e => .error e
      | .ok st3 => .ok ((username, uid), st3)

/-- lookupGids is the gid list comprehension of `_locked_get_spawn_info`:
`lookup_gid` for every group of the user.  The guard in the caller raises
`ValueError` naming the active team and the team list when the active team is
neither a requested team nor the `TeamName` form of the user's ezid.  The
best-effort rosetta backup reads the tables and writes only log events and
backup files, so it does not appear in the model. -/
def lookupGids (gt : List GroupRec) : List Str → Res (List Nat)
  | [] => .ok []
  | gn :: rest =>
    match lookup_gid gn gt with
    | .error e => .error e
    | .ok g =>
      match lookupGids gt rest with
      | .error e => .error e
      | .ok gs => .ok (g :: gs)

/-- locked_get_spawn_info models `UidGidApi._locked_get_spawn_info` (doc above
`lookupGids`): the pre-guard phase, the active-team guard, then the
`SpawnInfo` assembly. -/
def locked_get_spawn_info (env : SpawnEnv) (stsci_uuid stsci_ezid active_team : Str)
    (teams : List Str) (st : St) : Res (SpawnInfo × St) :=
  match preSpawn env stsci_uuid stsci_ezid teams st with
  | .error e => .error e
  | .ok ((username, uid), st3) =>
    match mkUnicodeName stsci_ezid with
    | .error e => .error e
    | .ok te =>
      match (if active_team ∈ teams ++ [te] then
               get_group_info active_team (("teamname").data) st3.groups
             else .error (.activeTeamValueErr active_team teams)) with
      | .error e => .error e
      | .ok g_info =>
        match lookupGids st3.groups (get_groups_of_user username st3.groups) with
        | .error e => .error e
        | .ok gids =>
          let info : SpawnInfo :=
            { uid := uid, gid := g_info.gid,
              all_user_gids := gids.mergeSort (fun a b => decide (a ≤ b)),
              username := username, groupname := g_info.groupname,
              etc_passwd := get_etc_passwd_string st3.users,
              etc_group := get_etc_group_string st3.groups }
          .ok (info, st3)

/-- coerceTeams is the `[TeamName(team) for team in teams]` coercion of
`get_spawn_info`.  The file lock serializes the locked body against other
writers; in this single-call semantics it has no observable effect. -/
def coerceTeams : List Str → Res (List Str)
  | [] => .ok []
  | t :: rest =>
    match mkUnicodeName t with
    | .error e => .error e
    | .ok t2 =>
      match coerceTeams rest with
      | .error e => .error e
      | .ok ts => .ok (t2 :: ts)

/-- get_spawn_info models `UidGidApi.get_spawn_info` (doc above
`coerceTeams`): coerce the four raw inputs into their typed (normalized)
forms, then run the locked body. -/
def get_spawn_info (env : SpawnEnv) (stsci_uuid stsci_ezid active_team : Str)
    (teams : List Str) (st : St) : Res (SpawnInfo × St) :=
  match mkStsciUuid stsci_uuid with
  | .error e => .error e
  | .ok uu =>
    match mkUnicodeName stsci_ezid with
    | .error e => .error e
    | .ok ez =>
      match mkUnicodeName active_team with
      | .error e => .error e
      | .ok atm =>
        match coerceTeams teams with
        | .error e => .error e
        | .ok ts => locked_get_spawn_info env uu ez atm ts st

/-- resBindOk: reduction of the monadic bind on a successful result. -/
@[simp] theorem resBindOk {α β : Type} (a : α) (f : α → Res β) :
    (do let x ← (Except.ok a : Res α); f x) = f a := rfl

/-- resBindErr: reduction of the monadic bind on a raised exception. -/
@[simp] theorem resBindErr {α β : Type} (e : Err) (f : α → Res β) :
    (do let x ← (Except.error e : Res α); f x) = Except.error e := rfl

/-- resPure: reduction of `pure` in the `Res` monad. -/
@[simp] theorem resPure {α : Type} (a : α) : (pure a : Res α) = Except.ok a := rfl

/-- validUserKey lists the field keys a user record dictionary has. -/
def validUserKey (t : Str) : Bool :=
  t = ("uuid").data || t = ("ezid").data || t = ("username").data || t = ("uid").data ||
  t = ("gid").data || t = ("status").data || t = ("usertype").data || t = ("home").data ||
  t = ("shell").data || t = ("password").data || t = ("descr").data

theorem userField_isSome (r : UserRec) (t : Str) (h : validUserKey t = true) :
    (userField r t).isSome = true := by
  unfold validUserKey at h
  simp only [Bool.or_eq_true, decide_eq_true_eq] at h
  rcases h with ((((((((((h | h) | h) | h) | h) | h) | h) | h) | h) | h) | h) <;> subst h <;> rfl

theorem delete_user_no_match (id id_type : Str) (hk : validUserKey id_type = true) :
    ∀ ut : List UserRec, (∀ r ∈ ut, userField r id_type ≠ some id) →
      delete_user id id_type ut = .ok ut := by
  intro ut
  induction ut with
  | nil => intro _; rfl
  | cons r rest ih =>
    intro hno
    have hs := userField_isSome r id_type hk
    obtain ⟨v, hv⟩ := Option.isSome_iff_exists.mp hs
    have hne : v ≠ id := by
      intro h; exact hno r (List.mem_cons_self r rest) (by rw [hv, h])
    have hrest := ih (fun r2 h2 => hno r2 (List.mem_cons_of_mem r h2))
    simp [delete_user, hv, hne, hrest]

theorem delete_user_match (id id_type : Str) (hk : validUserKey id_type = true) :
    ∀ (pre : List UserRec) (r : UserRec) (post : List UserRec),
      (∀ r2 ∈ pre, userField r2 id_type ≠ some id) →
      userField r id_type = some id →
      delete_user id id_type (pre ++ r :: post)
        = .ok (pre ++ ({ r with status := ("deactivated").data } :: post)) := by
  intro pre
  induction pre with
  | nil =>
    intro r post _ hr
    simp [delete_user, hr]
  | cons p pre ih =>
    intro r post hno hr
    have hs := userField_isSome p id_type hk
    obtain ⟨v, hv⟩ := Option.isSome_iff_exists.mp hs
    have hne : v ≠ id := by
      intro h; exact hno p (List.mem_cons_self p pre) (by rw [hv, h])
    have := ih r post (fun r2 h2 => hno r2 (List.mem_cons_of_mem p h2)) hr
    simp [delete_user, hv, hne, this]

/-- C10: `delete_user(id, id_type)` with no record whose `id_type` field
equals `str(id)` is a silent no-op: no error, and the table is rewritten with
identical contents.  When a matching record exists, only the first matching
record's `status` field changes (to `deactivated`) and every other field and
every other record is unchanged. -/
theorem c10_delete_user_frame (id id_type : Str) (hk : validUserKey id_type = true) :
    (∀ ut : List UserRec, (∀ r ∈ ut, userField r id_type ≠ some id) →
        delete_user id id_type ut = .ok ut)
    ∧ (∀ (pre : List UserRec) (r : UserRec) (post : List UserRec),
        (∀ r2 ∈ pre, userField r2 id_type ≠ some id) →
        userField r id_type = some id →
        delete_user id id_type (pre ++ r :: post)
          = .ok (pre ++ ({ r with status := ("deactivated").data } :: post))) :=
  ⟨delete_user_no_match id id_type hk, delete_user_match id id_type hk⟩

/-- demoUserA is a concrete well-formed user record used by witnesses. -/
def demoUserA : UserRec :=
  { username := ("alice").data, password := ("x").data, uid := 1000, gid := 1000,
    descr := [], home := ("/home/alice").data, shell := ("/bin/bash").data,
    uuid := ("aaaaaaaa-bbbb-cccc-dddd-eeeeeeeeeeee").data, ezid := ("alice").data,
    status := ("active").data, usertype := ("individual").data }

/-- demoUserB is a second concrete user record used by witnesses. -/
def demoUserB : UserRec :=
  { username := ("bob").data, password := ("x").data, uid := 1001, gid := 1001,
    descr := [], home := ("/home/bob").data, shell := ("/bin/bash").data,
    uuid := ("bbbbbbbb-bbbb-cccc-dddd-eeeeeeeeeeee").data, ezid := ("bob").data,
    status := ("active").data, usertype := ("individual").data }

/-- Witness for C10 at a concrete table: deleting an absent uuid returns the
table unchanged; deleting a present uuid flips exactly that record's status. -/
theorem c10_witness :
    delete_user (("aaaaaaaa-bbbb-cccc-dddd-eeeeeeeeeeee").data) (("uuid").data) [demoUserB]
      = .ok [demoUserB]
    ∧ delete_user (("aaaaaaaa-bbbb-cccc-dddd-eeeeeeeeeeee").data) (("uuid").data)
        [demoUserB, demoUserA]
      = .ok [demoUserB, { demoUserA with status := ("deactivated").data }] := by
  constructor
  · exact (c10_delete_user_frame _ _ (by rfl)).1 [demoUserB] (by decide)
  · exact (c10_delete_user_frame _ _ (by rfl)).2 [demoUserB] demoUserA [] (by decide) (by rfl)

/-- rangedClasses: the concrete ranged-identifier classes of `types.py`. -/
def rangedClasses : List RangedCls :=
  [SystemUid, SystemGid, UserUid, UserGid, GroupGid, GroupAdminUid]

/-- mkRangedNat_validate: for a class with nonnegative bounds (as all classes
of `types.py` have), the ℕ-domain range test of `mkRangedNat` agrees with the
integer-domain `RangedId.validate` applied to the same value. -/
theorem mkRangedNat_validate (cls : RangedCls) (v : Nat)
    (h0 : 0 ≤ cls.min_id) (h1 : 0 ≤ cls.max_id) :
    mkRangedNat cls v =
      match RangedId_validate cls (.pyInt (v : Int)) with
      | .error e => .error e
      | .ok _ => .ok v := by
  have hiff : (v < cls.min_id.toNat ∨ cls.max_id.toNat < v) ↔
      ((v : Int) < cls.min_id ∨ (v : Int) > cls.max_id) := by
    constructor
    · rintro (h | h)
      · left; omega
      · right; omega
    · rintro (h | h)
      · left; omega
      · right; omega
  unfold mkRangedNat RangedId_validate
  dsimp only
  by_cases hc : v < cls.min_id.toNat ∨ cls.max_id.toNat < v
  · rw [if_pos hc, if_pos (hiff.mp hc)]
  · rw [if_neg hc, if_neg (fun hh => hc (hiff.mpr hh))]

/-- C8: constructing any ranged identifier with an integer outside the class's
`[min_id, max_id]` fails with the range `ValueError` (`rangeErr`, the
"RangeError" of the spec), a non-integer fails with a `TypeError`, and an
integer inside the range succeeds. -/
theorem c8_ranged_id_validation :
    ∀ cls ∈ rangedClasses, ∀ v : PyVal,
      (∀ n : Int, v = .pyInt n →
        ((n < cls.min_id ∨ n > cls.max_id) →
            mkRangedId cls v = .error (.rangeErr cls.min_id cls.max_id))
        ∧ (cls.min_id ≤ n → n ≤ cls.max_id → mkRangedId cls v = .ok v))
      ∧ ((∀ n : Int, v ≠ .pyInt n) →
          mkRangedId cls v = .error (.typeErr ("Value is not an integer"))) := by
  intro cls _ v
  constructor
  · rintro n rfl
    constructor
    · intro h
      simp [mkRangedId, RangedId_validate, h]
    · intro h1 h2
      have hno : ¬(n < cls.min_id ∨ n > cls.max_id) := by omega
      simp [mkRangedId, RangedId_validate, hno]
  · intro hn
    cases v with
    | pyInt n => exact absurd rfl (hn n)
    | pyStr s => rfl
    | pyNone => rfl

/-- Witness for C8: out-of-range, in-range, and non-integer construction for
concrete classes. -/
theorem c8_witness :
    mkRangedId UserUid (.pyInt 999) = .error (.rangeErr 1000 59999)
    ∧ mkRangedId UserUid (.pyInt 1000) = .ok (.pyInt 1000)
    ∧ mkRangedId GroupGid (.pyStr (("60000").data))
        = .error (.typeErr ("Value is not an integer")) := by
  refine ⟨?_, ?_, ?_⟩
  · exact ((c8_ranged_id_validation UserUid (by simp [rangedClasses]) (.pyInt 999)).1
      999 rfl).1 (by norm_num [UserUid])
  · exact ((c8_ranged_id_validation UserUid (by simp [rangedClasses]) (.pyInt 1000)).1
      1000 rfl).2 (by norm_num [UserUid]) (by norm_num [UserUid])
  · exact (c8_ranged_id_validation GroupGid (by simp [rangedClasses])
      (.pyStr (("60000").data))).2 (by intro n h; cases h)

/-- addLoop_cases characterizes `addLoop` at the first matching record. -/
theorem addLoop_cases (u g : Str) :
    ∀ (pre : List GroupRec) (r : GroupRec) (post : List GroupRec),
      (∀ r2 ∈ pre, r2.groupname ≠ g) → r.groupname = g →
      ((r.grouplist.length ≥ 32768 →
          addLoop u g (pre ++ r :: post) = .error (.runtimeErr ("Too many users in group.")))
       ∧ (r.grouplist.length < 32768 → u ∈ r.grouplist →
          addLoop u g (pre ++ r :: post) = .ok (pre ++ r :: post))
       ∧ (r.grouplist.length < 32768 → u ∉ r.grouplist →
          addLoop u g (pre ++ r :: post)
            = .ok (pre ++ { r with grouplist := r.grouplist ++ [u] } :: post))) := by
  intro pre
  induction pre with
  | nil =>
    intro r post _ hr
    refine ⟨?_, ?_, ?_⟩
    · intro hlen; simp [addLoop, hr, hlen]
    · intro hlen hmem
      have : ¬(r.grouplist.length ≥ 32768) := by omega
      simp [addLoop, hr, this, hmem]
    · intro hlen hmem
      have : ¬(r.grouplist.length ≥ 32768) := by omega
      simp [addLoop, hr, this, hmem]
  | cons p pre ih =>
    intro r post hno hr
    have hne : p.groupname ≠ g := hno p (List.mem_cons_self p pre)
    have ih2 := ih r post (fun r2 h2 => hno r2 (List.mem_cons_of_mem p h2)) hr
    refine ⟨?_, ?_, ?_⟩
    · intro hlen; simp [addLoop, hne, ih2.1 hlen]
    · intro hlen hmem; simp [addLoop, hne, ih2.2.1 hlen hmem]
    · intro hlen hmem; simp [addLoop, hne, ih2.2.2 hlen hmem]

/-- removeLoop_no_member: removal at the first matching record is the identity
when the user is not in its grouplist. -/
theorem removeLoop_no_member (u g : Str) :
    ∀ (pre : List GroupRec) (r : GroupRec) (post : List GroupRec),
      (∀ r2 ∈ pre, r2.groupname ≠ g) → r.groupname = g → u ∉ r.grouplist →
      removeLoop u g (pre ++ r :: post) = pre ++ r :: post := by
  intro pre
  induction pre with
  | nil =>
    intro r post _ hr hmem
    simp [removeLoop, hr, hmem]
  | cons p pre ih =>
    intro r post hno hr hmem
    have hne : p.groupname ≠ g := hno p (List.mem_cons_self p pre)
    have := ih r post (fun r2 h2 => hno r2 (List.mem_cons_of_mem p h2)) hr hmem
    simp [removeLoop, hne, this]

/-- group_exist_of_split: a record with the groupname makes `group_exist`
true. -/
theorem group_exist_of_split (g : Str) (pre : List GroupRec) (r : GroupRec)
    (post : List GroupRec) (hr : r.groupname = g) :
    group_exist g (pre ++ r :: post) = true := by
  simp [group_exist, all_groupnames, hr]

/-- C5 amended: for an existing group (written `pre ++ r :: post` with `r` the
first record named `g`), `add_user_to_group` raises `RuntimeError` exactly when
`r`'s grouplist already holds 32768 or more members — even when the user is
already a member, because the source checks the limit before membership;
below the limit the add is idempotent: a present member leaves the list
unchanged without error and an absent one is appended exactly once.
`remove_user_from_group` is an error-free no-op when the user is absent. -/
theorem c5_membership_ops (u g : Str) (pre : List GroupRec) (r : GroupRec)
    (post : List GroupRec) (hno : ∀ r2 ∈ pre, r2.groupname ≠ g)
    (hr : r.groupname = g) :
    (r.grouplist.length ≥ 32768 →
        add_user_to_group u g (pre ++ r :: post)
          = .error (.runtimeErr ("Too many users in group.")))
    ∧ (r.grouplist.length < 32768 → u ∈ r.grouplist →
        add_user_to_group u g (pre ++ r :: post) = .ok (pre ++ r :: post))
    ∧ (r.grouplist.length < 32768 → u ∉ r.grouplist →
        add_user_to_group u g (pre ++ r :: post)
          = .ok (pre ++ { r with grouplist := r.grouplist ++ [u] } :: post))
    ∧ (u ∉ r.grouplist →
        remove_user_from_group u g (pre ++ r :: post) = .ok (pre ++ r :: post)) := by
  have hex := group_exist_of_split g pre r post hr
  have hadd := addLoop_cases u g pre r post hno hr
  refine ⟨?_, ?_, ?_, ?_⟩
  · intro hlen; simp [add_user_to_group, hex, hadd.1 hlen]
  · intro hlen hmem; simp [add_user_to_group, hex, hadd.2.1 hlen hmem]
  · intro hlen hmem; simp [add_user_to_group, hex, hadd.2.2 hlen hmem]
  · intro hmem
    simp [remove_user_from_group, hex, removeLoop_no_member u g pre r post hno hr hmem]

/-- fullGroupRec is a concrete group holding 32768 members, the user `u` among
them. -/
def fullGroupRec : GroupRec :=
  { teamname := ("t").data, groupname := ("g").data, password := ("x").data,
    gid := 60000, grouplist := ("u").data :: List.replicate 32767 (("v").data),
    status := ("active").data, usertype := ("group").data }

/-- Counterexample to C5 as stated: `u` is already a member of the (existing)
group `g`, yet `add_user_to_group` raises `RuntimeError` although no addition
would happen and the 32768-member limit would not be exceeded — the source
checks `len(grouplist) >= 32768` before the membership test. -/
theorem c5_counterexample :
    (("u").data ∈ fullGroupRec.grouplist)
    ∧ add_user_to_group (("u").data) (("g").data) [fullGroupRec]
        = .error (.runtimeErr ("Too many users in group.")) := by
  constructor
  · exact List.mem_cons_self _ _
  · have hlen : fullGroupRec.grouplist.length ≥ 32768 := by
      show ((("u").data :: List.replicate 32767 (("v").data)).length) ≥ 32768
      rw [List.length_cons, List.length_replicate]
    exact (c5_membership_ops (("u").data) (("g").data) [] fullGroupRec []
      (by simp) rfl).1 hlen

/-- demoGroupSmall is a concrete two-member group used by the C5 witness. -/
def demoGroupSmall : GroupRec :=
  { teamname := ("teamx").data, groupname := ("gx").data, password := ("x").data,
    gid := 60001, grouplist := [("alice").data, ("bob").data],
    status := ("active").data, usertype := ("group").data }

/-- Witness for the amended C5 at a concrete small group: idempotent add of a
member, single append of a non-member, and no-op removal of a non-member. -/
theorem c5_witness :
    add_user_to_group (("alice").data) (("gx").data) [demoGroupSmall]
      = .ok [demoGroupSmall]
    ∧ add_user_to_group (("carol").data) (("gx").data) [demoGroupSmall]
      = .ok [{ demoGroupSmall with
                grouplist := demoGroupSmall.grouplist ++ [("carol").data] }]
    ∧ remove_user_from_group (("carol").data) (("gx").data) [demoGroupSmall]
      = .ok [demoGroupSmall] := by
  refine ⟨?_, ?_, ?_⟩
  · exact (c5_membership_ops (("alice").data) (("gx").data) [] demoGroupSmall []
      (by simp) rfl).2.1 (by decide) (by decide)
  · exact (c5_membership_ops (("carol").data) (("gx").data) [] demoGroupSmall []
      (by simp) rfl).2.2.1 (by decide) (by decide)
  · exact (c5_membership_ops (("carol").data) (("gx").data) [] demoGroupSmall []
      (by simp) rfl).2.2.2 (by decide)

/-- muRun_exit_cond: when the `make_unique` loop exits, its result fails the
loop condition: not an existing name, and within the length limit. -/
theorem muRun_exit_cond (existing : List Str) (cand : Str) (ml : Nat) :
    ∀ fuel s nm, muRun existing cand ml fuel s = some nm →
      nm ∉ existing ∧ nm.length ≤ ml := by
  intro fuel
  induction fuel with
  | zero => intro s nm h; cases h
  | succ f ih =>
    intro s nm h
    unfold muRun at h
    split at h
    · exact ih _ _ h
    · rename_i hcond
      injection h with h
      subst h
      simp only [muCondB, Bool.not_eq_true, Bool.or_eq_false_iff,
        decide_eq_false_iff_not, Nat.not_lt] at hcond
      exact ⟨hcond.1, hcond.2⟩

/-- C6: `make_unique` resolves collisions by appending a decimal `-n` suffix
(re-truncating the base candidate when over the length limit) and, whenever it
returns, the returned name is not in the supplied existing-name set and is at
most 32 characters; in particular
`make_unique("user", {"user","user-0","user-1"}) == "user-2"`. -/
theorem c6_make_unique :
    (∀ (fuel : Nat) (cand : Str) (existing : List Str) (nm : Str),
        make_unique fuel cand existing 32 = .ok nm →
          nm ∉ existing ∧ nm.length ≤ 32)
    ∧ make_unique 8 (("user").data)
        [("user").data, ("user-0").data, ("user-1").data] 32
      = .ok (("user-2").data) := by
  constructor
  · intro fuel cand existing nm h
    unfold make_unique at h
    split at h
    · cases h
    · rename_i nm2 hrun
      split at h
      · injection h with h
        subst h
        exact muRun_exit_cond existing cand 32 fuel _ nm2 hrun
      · cases h
  · rfl

/-- Witness for C6 at the concrete collision set of the claim. -/
theorem c6_witness :
    (("user-2").data ∉ [("user").data, ("user-0").data, ("user-1").data])
    ∧ (("user-2").data : Str).length ≤ 32 :=
  c6_make_unique.1 8 (("user").data)
    [("user").data, ("user-0").data, ("user-1").data] (("user-2").data)
    c6_make_unique.2

/-- scanFree_spec: with any fuel covering a free id, the scan returns the
first id at or above the start that is not in `used`. -/
theorem scanFree_spec (used : List Nat) :
    ∀ fuel n, (∃ m, n ≤ m ∧ m ≤ n + fuel ∧ m ∉ used) →
      scanFree used fuel n ∉ used ∧ n ≤ scanFree used fuel n ∧
        ∀ k, n ≤ k → k < scanFree used fuel n → k ∈ used := by
  intro fuel
  induction fuel with
  | zero =>
    intro n hex
    obtain ⟨m, h1, h2, h3⟩ := hex
    have hm : m = n := by omega
    subst hm
    refine ⟨by simpa [scanFree] using h3, Nat.le_refl _, ?_⟩
    intro k hk1 hk2
    simp only [scanFree] at hk2
    omega
  | succ f ih =>
    intro n hex
    obtain ⟨m, h1, h2, h3⟩ := hex
    by_cases hn : n ∈ used
    · have hm : n + 1 ≤ m := by
        rcases Nat.eq_or_lt_of_le h1 with he | hl
        · exact absurd hn (he ▸ h3)
        · omega
      have hrec := ih (n + 1) ⟨m, hm, by omega, h3⟩
      rw [show scanFree used (f + 1) n = scanFree used f (n + 1) by
        simp [scanFree, hn]]
      refine ⟨hrec.1, by omega, ?_⟩
      intro k hk1 hk2
      rcases Nat.eq_or_lt_of_le hk1 with he | hl
      · exact he ▸ hn
      · exact hrec.2.2 k (by omega) hk2
    · rw [show scanFree used (f + 1) n = n by simp [scanFree, hn]]
      exact ⟨hn, Nat.le_refl _, fun k hk1 hk2 => by omega⟩

/-- exists_free: a list of `n` used ids cannot cover the `n + 1` candidates
`start .. start + n`. -/
theorem exists_free (used : List Nat) (start : Nat) :
    ∃ m, start ≤ m ∧ m ≤ start + used.length ∧ m ∉ used := by
  by_contra h
  push_neg at h
  have hsub : Finset.Icc start (start + used.length) ⊆ used.toFinset := by
    intro m hm
    rw [Finset.mem_Icc] at hm
    rw [List.mem_toFinset]
    exact h m hm.1 hm.2
  have hc := Finset.card_le_card hsub
  rw [Nat.card_Icc] at hc
  have := List.toFinset_card_le used
  omega

/-- get_new_uid_spec_individual: a successful individual allocation is the
least id at or above 1000 whose value no existing record holds. -/
theorem get_new_uid_spec_individual (ut : List UserRec) (u : Nat)
    (h : get_new_uid (("individual").data) ut = .ok u) :
    u ∉ all_uids ut ∧ 1000 ≤ u ∧ ∀ k, 1000 ≤ k → k < u → k ∈ all_uids ut := by
  unfold get_new_uid at h
  rw [if_pos rfl] at h
  unfold mkRangedNat at h
  split at h
  · cases h
  · injection h with h
    subst h
    exact scanFree_spec (all_uids ut) (all_uids ut).length 1000
      (exists_free (all_uids ut) 1000)

/-- get_new_uid_spec_group: the group-admin analogue from 60000. -/
theorem get_new_uid_spec_group (ut : List UserRec) (u : Nat)
    (h : get_new_uid (("group").data) ut = .ok u) :
    u ∉ all_uids ut ∧ 60000 ≤ u ∧ ∀ k, 60000 ≤ k → k < u → k ∈ all_uids ut := by
  unfold get_new_uid at h
  rw [if_neg (by decide), if_pos rfl] at h
  unfold mkRangedNat at h
  split at h
  · cases h
  · injection h with h
    subst h
    exact scanFree_spec (all_uids ut) (all_uids ut).length 60000
      (exists_free (all_uids ut) 60000)

/-- add_user_append: a successful `add_user` appends exactly one record, whose
uid is the returned user's uid; with defaulted uid and `individual` usertype
that uid is a fresh first-free allocation relative to the pre-state. -/
theorem add_user_append (env : SpawnEnv) (uuid ezid : Str) (ut : List UserRec)
    (u : UserRec) (ut2 : List UserRec)
    (h : add_user env uuid ezid false false none none none (("individual").data)
          none ut = .ok (u, ut2)) :
    ut2 = ut ++ [u]
    ∧ u.uid ∉ all_uids ut ∧ 1000 ≤ u.uid
    ∧ ∀ k, 1000 ≤ k → k < u.uid → k ∈ all_uids ut := by
  unfold add_user at h
  split at h
  · rename_i e heq
    simp [user_exist] at heq
  · split at h
    · cases h
    · split at h
      · cases h
      · split at h
        · cases h
        · split at h
          · cases h
          · rename_i uidv hequid
            split at h
            · cases h
            · split at h
              · cases h
              · split at h
                · cases h
                · split at h
                  · cases h
                  · split at h
                    · cases h
                    · split at h
                      · cases h
                      · injection h with h
                        injection h with h1 h2
                        subst h1
                        subst h2
                        have := get_new_uid_spec_individual ut uidv hequid
                        exact ⟨rfl, this.1, this.2.1, this.2.2⟩

/-- delete_user_uids: deactivation rewrites a status flag only, so the
multiset of uids in the table is unchanged — ids are never freed. -/
theorem delete_user_uids : ∀ (ut ut2 : List UserRec) (id ty : Str),
    delete_user id ty ut = .ok ut2 → all_uids ut2 = all_uids ut := by
  intro ut
  induction ut with
  | nil =>
    intro ut2 id ty h
    injection h with h
    subst h
    rfl
  | cons r rest ih =>
    intro ut2 id ty h
    unfold delete_user at h
    split at h
    · cases h
    · split at h
      · injection h with h
        subst h
        simp [all_uids]
      · split at h
        · cases h
        · rename_i rest2 hrest
          injection h with h
          subst h
          simp only [all_uids, List.map_cons]
          rw [show (rest2.map fun r => r.uid) = all_uids rest2 from rfl,
            ih rest2 id ty hrest]
          rfl

/-- UserOp is one step of the C2 allocation scenario: a new-user creation
(`add_user` with derived username, uid and gid) or a deactivation
(`delete_user`), in any interleaving. -/
inductive UserOp where
  | createOp (uuid ezid : Str)
  | deactivateOp (id id_type : Str)

/-- runOps replays a sequence of creations and deactivations against the user
table, collecting the uid issued by each successful creation (a failed step
leaves the table untouched: the source performs its single table write only
after every check has passed). -/
def runOps (env : SpawnEnv) : List UserOp → List UserRec → List Nat →
    List UserRec × List Nat
  | [], ut, acc => (ut, acc)
  | .createOp uuid ezid :: rest, ut, acc =>
    match add_user env uuid ezid false false none none none
      (("individual").data) none ut with
    | .ok (u, ut2) => runOps env rest ut2 (acc ++ [u.uid])
    | .error _ => runOps env rest ut acc
  | .deactivateOp id ty :: rest, ut, acc =>
    match delete_user id ty ut with
    | .ok ut2 => runOps env rest ut2 acc
    | .error _ => runOps env rest ut acc

/-- uidInv: the issued uids are strictly increasing, and for each issued uid
the whole range from 1000 up to it is occupied in the current table (which is
what forces the next allocation to be strictly larger). -/
def uidInv (ut : List UserRec) (acc : List Nat) : Prop :=
  acc.Pairwise (· < ·) ∧ ∀ a ∈ acc, ∀ k, 1000 ≤ k → k ≤ a → k ∈ all_uids ut

/-- runOps_inv: `uidInv` is preserved by every step, so the final issued list
is strictly increasing. -/
theorem runOps_inv (env : SpawnEnv) : ∀ (ops : List UserOp) (ut : List UserRec)
    (acc : List Nat), uidInv ut acc →
    ((runOps env ops ut acc).2).Pairwise (· < ·) := by
  intro ops
  induction ops with
  | nil => intro ut acc h; exact h.1
  | cons op rest ih =>
    intro ut acc h
    cases op with
    | createOp uuid ezid =>
      unfold runOps
      split
      · rename_i u ut2 hadd
        apply ih
        obtain ⟨hut2, hnotin, hge, hmin⟩ := add_user_append env uuid ezid ut u ut2 hadd
        constructor
        · rw [List.pairwise_append]
          refine ⟨h.1, List.pairwise_singleton _ _, ?_⟩
          intro a ha b hb
          rw [List.mem_singleton] at hb
          subst hb
          by_contra hle
          push_neg at hle
          exact hnotin (h.2 a ha u.uid hge hle)
        · intro a ha k hk1 hk2
          have huids : all_uids ut2 = all_uids ut ++ [u.uid] := by
            rw [hut2]; simp [all_uids]
          rw [huids, List.mem_append]
          rcases List.mem_append.mp ha with ha2 | ha2
          · exact Or.inl (h.2 a ha2 k hk1 hk2)
          · rw [List.mem_singleton] at ha2
            subst ha2
            rcases Nat.lt_or_ge k u.uid with hl | hge2
            · exact Or.inl (hmin k hk1 hl)
            · have : k = u.uid := by omega
              subst this
              simp
      · exact ih ut acc h
    | deactivateOp id ty =>
      unfold runOps
      split
      · rename_i ut2 hdel
        apply ih
        refine ⟨h.1, fun a ha k hk1 hk2 => ?_⟩
        rw [delete_user_uids ut ut2 id ty hdel]
        exact h.2 a ha k hk1 hk2
      · exact ih ut acc h

/-- C2: uid allocation is monotone and never reuses ids.  `get_new_uid` scans
upward from the range minimum (1000 for `individual`, 60000 for `group`) and
returns the first integer not among the uids of any existing record; and for
every sequence of new-user creations with arbitrarily interleaved
deactivations (which only flip the status flag), the issued uids are strictly
increasing — in particular no uid is ever issued twice. -/
theorem c2_uid_allocation :
    (∀ (ut : List UserRec) (u : Nat), get_new_uid (("individual").data) ut = .ok u →
        u ∉ all_uids ut ∧ 1000 ≤ u ∧ ∀ k, 1000 ≤ k → k < u → k ∈ all_uids ut)
    ∧ (∀ (ut : List UserRec) (u : Nat), get_new_uid (("group").data) ut = .ok u →
        u ∉ all_uids ut ∧ 60000 ≤ u ∧ ∀ k, 60000 ≤ k → k < u → k ∈ all_uids ut)
    ∧ (∀ (env : SpawnEnv) (ops : List UserOp) (ut : List UserRec),
        ((runOps env ops ut []).2).Pairwise (· < ·)) :=
  ⟨get_new_uid_spec_individual, get_new_uid_spec_group,
    fun env ops ut => runOps_inv env ops ut [] ⟨List.Pairwise.nil, by simp⟩⟩

/-- demoEnv: a concrete environment (identity transliteration, a fixed fresh
uuid stream, default group prefix) used by concrete runs. -/
def demoEnv : SpawnEnv :=
  ⟨id, fun _ => ("99999999-8888-7777-6666-555555555555").data, ("g-").data⟩

/-- Witness for C2: a concrete allocation against a one-record table returns
the first free id 1001, and a concrete create/deactivate/create run issues
strictly increasing uids. -/
theorem c2_witness :
    (1001 ∉ all_uids [demoUserA] ∧ 1000 ≤ 1001
      ∧ ∀ k, 1000 ≤ k → k < 1001 → k ∈ all_uids [demoUserA])
    ∧ ((runOps demoEnv
          [.createOp (("aaaaaaaa-0000-0000-0000-000000000000").data) (("carol").data),
           .deactivateOp (("aaaaaaaa-0000-0000-0000-000000000000").data) (("uuid").data),
           .createOp (("bbbbbbbb-0000-0000-0000-000000000000").data) (("dave").data)]
          [demoUserB] []).2).Pairwise (· < ·) :=
  ⟨c2_uid_allocation.1 [demoUserA] 1001 (by rfl),
   c2_uid_allocation.2.2 demoEnv _ [demoUserB]⟩

/-- C1 (code-bug exhibit): `StsciUuid` accepts an unhyphenated 32-character
`[0-9a-z]` id (contradicting its own docstring, which says uuids are
hexadecimal), hyphenates and stores it, but `get_user_info` re-validates the
stored form against the hex-only hyphenated pattern.  Hence the first
`get_spawn_info` call for the all-`z` uuid succeeds and creates the user,
while the immediately repeated call with exactly the same inputs raises
`ValueError("Invalid UUID format.")` instead of returning the same
`SpawnInfo` — refuting idempotence at this input. -/
theorem c1_idempotence_code_bug :
    ∃ (info : SpawnInfo) (s1 : St),
      get_spawn_info demoEnv (("zzzzzzzzzzzzzzzzzzzzzzzzzzzzzzzz").data)
        (("alice").data) (("alice").data) [] ⟨[], [], 0⟩ = .ok (info, s1)
      ∧ get_spawn_info demoEnv (("zzzzzzzzzzzzzzzzzzzzzzzzzzzzzzzz").data)
        (("alice").data) (("alice").data) [] s1
        = .error (.valueErr ("Invalid UUID format.")) :=
  ⟨_, _, rfl, rfl⟩

/-- b64Chars: the standard base64 alphabet used by `base64.b64encode`. -/
def b64Chars : Str :=
  ("ABCDEFGHIJKLMNOPQRSTUVWXYZabcdefghijklmnopqrstuvwxyz0123456789+/").data

/-- b64Char: the alphabet character for a 6-bit value. -/
def b64Char (k : Nat) : Char := b64Chars.getD k '?'

/-- b64Val: the 6-bit value of an alphabet character. -/
def b64Val (c : Char) : Nat := b64Chars.indexOf c

/-- b64_val_char: decoding inverts encoding on every 6-bit value. -/
theorem b64_val_char : ∀ k, k < 64 → b64Val (b64Char k) = k := by decide

/-- b64Char_ne_pad: no alphabet character is the padding character. -/
theorem b64Char_ne_pad : ∀ k, k < 64 → b64Char k ≠ '=' := by decide

/-- b64encode models `base64.b64encode` on a byte list: each 3-byte group
becomes four alphabet characters; a trailing 1- or 2-byte group is padded
with `=`. -/
def b64encode : List Nat → Str
  | [] => []
  | [b1] => [b64Char (b1 / 4), b64Char (b1 % 4 * 16), '=', '=']
  | [b1, b2] =>
    [b64Char (b1 / 4), b64Char (b1 % 4 * 16 + b2 / 16), b64Char (b2 % 16 * 4), '=']
  | b1 :: b2 :: b3 :: rest =>
    b64Char (b1 / 4) :: b64Char (b1 % 4 * 16 + b2 / 16) ::
    b64Char (b2 % 16 * 4 + b3 / 64) :: b64Char (b3 % 64) :: b64encode rest

/-- b64decode models `base64.b64decode` on well-padded input: each 4-character
group yields three bytes, or fewer at the final padded group. -/
def b64decode : Str → List Nat
  | c1 :: c2 :: c3 :: c4 :: rest =>
    if c3 = '=' then [b64Val c1 * 4 + b64Val c2 / 16]
    else if c4 = '=' then
      [b64Val c1 * 4 + b64Val c2 / 16, b64Val c2 % 16 * 16 + b64Val c3 / 4]
    else
      (b64Val c1 * 4 + b64Val c2 / 16) ::
      (b64Val c2 % 16 * 16 + b64Val c3 / 4) ::
      (b64Val c3 % 4 * 64 + b64Val c4) :: b64decode rest
  | _ => []

/-- b64_roundtrip_aux: decoding inverts encoding for every byte list (fuel is
an upper bound on the length for the strong induction). -/
theorem b64_roundtrip_aux : ∀ (n : Nat) (l : List Nat), l.length ≤ n →
    (∀ x ∈ l, x < 256) → b64decode (b64encode l) = l := by
  intro n
  induction n with
  | zero =>
    intro l hl _
    rw [List.eq_nil_of_length_eq_zero (Nat.le_zero.mp hl)]
    rfl
  | succ n ih =>
    intro l hl hb
    rcases l with _ | ⟨b1, _ | ⟨b2, _ | ⟨b3, rest⟩⟩⟩
    · rfl
    · have h1 : b1 < 256 := hb b1 (by simp)
      show b64decode [b64Char (b1 / 4), b64Char (b1 % 4 * 16), '=', '='] = [b1]
      unfold b64decode
      rw [if_pos rfl]
      rw [b64_val_char _ (by omega), b64_val_char _ (by omega)]
      congr 1
      omega
    · have h1 : b1 < 256 := hb b1 (by simp)
      have h2 : b2 < 256 := hb b2 (by simp)
      show b64decode [b64Char (b1 / 4), b64Char (b1 % 4 * 16 + b2 / 16),
        b64Char (b2 % 16 * 4), '='] = [b1, b2]
      unfold b64decode
      rw [if_neg (b64Char_ne_pad _ (by omega)), if_pos rfl]
      rw [b64_val_char _ (by omega), b64_val_char _ (by omega),
        b64_val_char _ (by omega)]
      congr 1
      · omega
      · congr 1
        omega
    · have h1 : b1 < 256 := hb b1 (by simp)
      have h2 : b2 < 256 := hb b2 (by simp)
      have h3 : b3 < 256 := hb b3 (by simp)
      show b64decode (b64Char (b1 / 4) :: b64Char (b1 % 4 * 16 + b2 / 16) ::
        b64Char (b2 % 16 * 4 + b3 / 64) :: b64Char (b3 % 64) :: b64encode rest)
        = b1 :: b2 :: b3 :: rest
      unfold b64decode
      rw [if_neg (b64Char_ne_pad _ (by omega)), if_neg (b64Char_ne_pad _ (by omega))]
      rw [b64_val_char _ (by omega), b64_val_char _ (by omega),
        b64_val_char _ (by omega), b64_val_char _ (by omega)]
      rw [ih rest (by simp at hl; omega) (fun x hx => hb x (by simp [hx]))]
      congr 1
      · omega
      · congr 1
        · omega
        · congr 1
          omega

/-- backup_encode models `backup.encode`: compress the bytes with the external
`bz2` capability, base64-encode, and return the resulting ASCII transport
string (utf-8 decoding of ASCII base64 output is the identity on the
character sequence, so the string is the base64 character list itself). -/
def backup_encode (compress : List Nat → List Nat) (data : List Nat) : Str :=
  b64encode (compress data)

/-- backup_decode models `backup.decode`: base64-decode the transport string
and decompress with the external `bz2` capability. -/
def backup_decode (decompress : List Nat → List Nat) (s : Str) : List Nat :=
  decompress (b64decode s)

/-- C9: the backup transport encoding round-trips,
`decode(encode(b)) == b`, for every byte list `b` — including the empty one
and arbitrarily large ones — given that the external `bz2` pair satisfies
`decompress(compress(b)) == b` and `compress` produces bytes.  The base64 and
utf-8 legs are modelled concretely and proved; the `bz2` leg is the spec's
external `compress+encodeForTransport` capability. -/
theorem c9_backup_roundtrip :
    ∀ (compress decompress : List Nat → List Nat),
      (∀ b, decompress (compress b) = b) →
      ∀ b : List Nat, (∀ x ∈ compress b, x < 256) →
        backup_decode decompress (backup_encode compress b) = b := by
  intro compress decompress hinv b hbytes
  unfold backup_encode backup_decode
  rw [b64_roundtrip_aux (compress b).length (compress b) (Nat.le_refl _) hbytes,
    hinv]

/-- Witness for C9 with the identity codec at a concrete byte list and at the
empty byte list. -/
theorem c9_witness :
    backup_decode id (backup_encode id [0, 255, 10, 77]) = [0, 255, 10, 77]
    ∧ backup_decode id (backup_encode id []) = [] :=
  ⟨c9_backup_roundtrip id id (fun _ => rfl) [0, 255, 10, 77] (by decide),
   c9_backup_roundtrip id id (fun _ => rfl) [] (by decide)⟩

/-- decAux_eq_digits: with enough fuel, `decAux` is the reversed decimal
expansion. -/
theorem decAux_eq_digits : ∀ (f n : Nat), 0 < n → n < 10 ^ (f + 1) →
    decAux f n = (Nat.digits 10 n).reverse := by
  intro f
  induction f with
  | zero =>
    intro n h0 hlt
    rw [pow_one] at hlt
    unfold decAux
    rw [Nat.digits_def' (by norm_num : (1:ℕ) < 10) h0,
      Nat.mod_eq_of_lt hlt, Nat.div_eq_of_lt hlt]
    simp
  | succ f ih =>
    intro n h0 hlt
    unfold decAux
    by_cases hn : n < 10
    · rw [if_pos hn, Nat.digits_def' (by norm_num : (1:ℕ) < 10) h0,
        Nat.mod_eq_of_lt hn, Nat.div_eq_of_lt hn]
      simp
    · rw [if_neg hn, Nat.digits_def' (by norm_num : (1:ℕ) < 10) h0,
        List.reverse_cons]
      rw [ih (n / 10) (by omega) (by
        rw [Nat.div_lt_iff_lt_mul (show 0 < 10 by norm_num)]
        calc n < 10 ^ (f + 1 + 1) := hlt
          _ = 10 ^ (f + 1) * 10 := by ring)]

/-- decStr_pos_eq: for positive `n`, `decStr n` is the decimal digit string. -/
theorem decStr_pos_eq (n : Nat) (h : 0 < n) :
    decStr n = ((Nat.digits 10 n).reverse).map Nat.digitChar := by
  unfold decStr
  rw [decAux_eq_digits n n h
    (lt_of_lt_of_le (Nat.lt_pow_self (by norm_num) n)
      (Nat.pow_le_pow_right (by norm_num) (Nat.le_succ n)))]

/-- decStr_ne_dash: decimal digit characters are never the hyphen. -/
theorem decStr_ne_dash (n : Nat) (h : 0 < n) : ∀ c ∈ decStr n, c ≠ '-' := by
  rw [decStr_pos_eq n h]
  intro c hc
  rw [List.mem_map] at hc
  obtain ⟨d, hd, rfl⟩ := hc
  rw [List.mem_reverse] at hd
  have hd10 : d < 10 := Nat.digits_lt_base (by norm_num) hd
  have hdig : ∀ d : Nat, d < 10 → Nat.digitChar d ≠ '-' := by decide
  exact hdig d hd10

/-- mapDigitChar_inj: `digitChar` is injective on digit lists. -/
theorem mapDigitChar_inj : ∀ (l1 l2 : List Nat), (∀ x ∈ l1, x < 10) →
    (∀ x ∈ l2, x < 10) → l1.map Nat.digitChar = l2.map Nat.digitChar → l1 = l2 := by
  have hchar : ∀ a : Nat, a < 10 → ∀ b : Nat, b < 10 →
      Nat.digitChar a = Nat.digitChar b → a = b := by decide
  intro l1
  induction l1 with
  | nil =>
    intro l2 _ _ h
    cases l2 with
    | nil => rfl
    | cons c cs => cases h
  | cons a as ih =>
    intro l2 h1 h2 h
    cases l2 with
    | nil => cases h
    | cons b bs =>
      rw [List.map_cons, List.map_cons] at h
      injection h with hh ht
      rw [hchar a (h1 a (by simp)) b (h2 b (by simp)) hh,
        ih bs (fun x hx => h1 x (by simp [hx])) (fun x hx => h2 x (by simp [hx])) ht]

/-- decStr_injective: distinct positive numbers have distinct decimal
strings. -/
theorem decStr_injective (m n : Nat) (hm : 0 < m) (hn : 0 < n)
    (h : decStr m = decStr n) : m = n := by
  rw [decStr_pos_eq m hm, decStr_pos_eq n hn] at h
  have hrev : (Nat.digits 10 m).reverse = (Nat.digits 10 n).reverse :=
    mapDigitChar_inj _ _
      (fun x hx => Nat.digits_lt_base (by norm_num) (List.mem_reverse.mp hx))
      (fun x hx => Nat.digits_lt_base (by norm_num) (List.mem_reverse.mp hx)) h
  have hdig : Nat.digits 10 m = Nat.digits 10 n := by
    have := congrArg List.reverse hrev
    simpa using this
  calc m = Nat.ofDigits 10 (Nat.digits 10 m) := (Nat.ofDigits_digits 10 m).symm
    _ = Nat.ofDigits 10 (Nat.digits 10 n) := by rw [hdig]
    _ = n := Nat.ofDigits_digits 10 n

/-- decStr_length: the decimal string of a positive number has
`log 10 n + 1` characters. -/
theorem decStr_length (n : Nat) (h : 0 < n) :
    (decStr n).length = Nat.log 10 n + 1 := by
  rw [decStr_pos_eq n h]
  rw [List.length_map, List.length_reverse,
    Nat.digits_len 10 n (by norm_num) (by omega)]

/-- decStr_length_le: below `10^31` the decimal string fits in 31 characters. -/
theorem decStr_length_le (n : Nat) (h0 : 0 < n) (h : n < 10 ^ 31) :
    (decStr n).length ≤ 31 := by
  rw [decStr_length n h0]
  have := (Nat.lt_pow_iff_log_lt (by norm_num) (by omega)).mp h
  omega

/-- decStr_length_ge: from `10^31` on, the decimal string needs at least 32
characters. -/
theorem decStr_length_ge (n : Nat) (h : 10 ^ 31 ≤ n) : 32 ≤ (decStr n).length := by
  have h0 : 0 < n := lt_of_lt_of_le (by positivity) h
  rw [decStr_length n h0]
  have := (Nat.pow_le_iff_le_log (by norm_num) (by omega)).mp h
  omega

/-- muIter is the trace of `make_unique` loop states from the initial state
(the body does not consult the existing-name set, so the trace is independent
of it). -/
def muIter (candidate : Str) (max_length : Nat) : Nat → MUState
  | 0 => ⟨candidate, 1, none⟩
  | k + 1 => muBody candidate max_length (muIter candidate max_length k)

/-- muIter_counter: the loop counter at trace position `k` is `k + 1`. -/
theorem muIter_counter (c : Str) (ml : Nat) : ∀ k, (muIter c ml k).counter = k + 1 := by
  intro k
  induction k with
  | zero => rfl
  | succ k ih =>
    show (muBody c ml (muIter c ml k)).counter = k + 1 + 1
    rw [show ∀ s, (muBody c ml s).counter = s.counter + 1 from fun _ => rfl, ih]

/-- muIter_shape: from position 1 on, every trace name ends in the freshly
appended tail `-k`. -/
theorem muIter_shape (c : Str) (ml k : Nat) :
    (muIter c ml (k + 1)).unique_name
      = muStripped c ml (muIter c ml k) ++ '-' :: decStr (k + 1) := by
  show (muBody c ml (muIter c ml k)).unique_name = _
  rw [show ∀ s, (muBody c ml s).unique_name
      = muStripped c ml s ++ '-' :: decStr s.counter from fun _ => rfl,
    muIter_counter]

/-- muRun_exits_from: if the loop condition fails somewhere within the fuel
horizon, the loop exits with a value. -/
theorem muRun_exits_from (existing : List Str) (c : Str) (ml : Nat) :
    ∀ (fuel j : Nat),
      (∃ k, j ≤ k ∧ k < j + fuel ∧ muCondB existing ml (muIter c ml k) = false) →
      ∃ nm, muRun existing c ml fuel (muIter c ml j) = some nm := by
  intro fuel
  induction fuel with
  | zero =>
    intro j ⟨k, h1, h2, _⟩
    omega
  | succ fuel ih =>
    intro j ⟨k, h1, h2, h3⟩
    by_cases hc : muCondB existing ml (muIter c ml j) = true
    · have hkj : j + 1 ≤ k := by
        rcases Nat.eq_or_lt_of_le h1 with he | hl
        · rw [← he] at h3; rw [h3] at hc; cases hc
        · omega
      obtain ⟨nm, hnm⟩ := ih (j + 1) ⟨k, hkj, by omega, h3⟩
      refine ⟨nm, ?_⟩
      unfold muRun
      rw [if_pos hc]
      exact hnm
    · refine ⟨(muIter c ml j).unique_name, ?_⟩
      unfold muRun
      rw [if_neg hc]

/-- muRun_none_from: if the loop condition holds at every trace position, the
loop never exits (every fuel is exhausted). -/
theorem muRun_none_from (existing : List Str) (c : Str) (ml : Nat) :
    ∀ (fuel j : Nat),
      (∀ k, j ≤ k → muCondB existing ml (muIter c ml k) = true) →
      muRun existing c ml fuel (muIter c ml j) = none := by
  intro fuel
  induction fuel with
  | zero => intro j _; rfl
  | succ fuel ih =>
    intro j hall
    unfold muRun
    rw [if_pos (hall j (Nat.le_refl j))]
    exact ih (j + 1) (fun k hk => hall k (by omega))

/-- muRun_fuel_mono: a loop result is stable under adding fuel. -/
theorem muRun_fuel_mono (existing : List Str) (c : Str) (ml : Nat) :
    ∀ (f1 : Nat) (s : MUState) (nm : Str),
      muRun existing c ml f1 s = some nm →
      ∀ f2, f1 ≤ f2 → muRun existing c ml f2 s = some nm := by
  intro f1
  induction f1 with
  | zero => intro s nm h; cases h
  | succ f1 ih =>
    intro s nm h f2 hle
    obtain ⟨f2', rfl⟩ : ∃ f2', f2 = f2' + 1 := ⟨f2 - 1, by omega⟩
    unfold muRun at h ⊢
    split at h
    · rename_i hc
      rw [if_pos hc]
      exact ih _ nm h f2' (by omega)
    · rename_i hc
      rw [if_neg hc]
      exact h

/-- dashfree_head_inj: a list equation `p ++ '-' :: x = q ++ '-' :: y` with
dash-free `p` and `q` forces `p = q` and `x = y`. -/
theorem dashfree_head_inj : ∀ (p q x y : Str), (∀ c ∈ p, c ≠ '-') →
    (∀ c ∈ q, c ≠ '-') → p ++ '-' :: x = q ++ '-' :: y → p = q ∧ x = y := by
  intro p
  induction p with
  | nil =>
    intro q x y _ hq h
    cases q with
    | nil =>
      simp only [List.nil_append] at h
      injection h with _ ht
      exact ⟨rfl, ht⟩
    | cons qc qs =>
      simp only [List.nil_append, List.cons_append] at h
      injection h with hh _
      exact absurd hh.symm (hq qc (by simp))
  | cons pc ps ih =>
    intro q x y hp hq h
    cases q with
    | nil =>
      simp only [List.cons_append, List.nil_append] at h
      injection h with hh _
      exact absurd hh (hp pc (by simp))
    | cons qc qs =>
      simp only [List.cons_append] at h
      injection h with hh ht
      obtain ⟨h1, h2⟩ := ih qs x y (fun c hc => hp c (by simp [hc]))
        (fun c hc => hq c (by simp [hc])) ht
      exact ⟨by rw [hh, h1], h2⟩

/-- append_dash_tail_inj: two decorated names with dash-free decimal tails can
only coincide when the tails coincide. -/
theorem append_dash_tail_inj (a b d e : Str) (hd : ∀ c ∈ d, c ≠ '-')
    (he : ∀ c ∈ e, c ≠ '-') (h : a ++ '-' :: d = b ++ '-' :: e) : d = e := by
  have hrev := congrArg List.reverse h
  rw [List.reverse_append, List.reverse_append, List.reverse_cons,
    List.reverse_cons] at hrev
  rw [List.append_assoc, List.append_assoc] at hrev
  simp only [List.singleton_append] at hrev
  have := dashfree_head_inj d.reverse e.reverse a.reverse b.reverse
    (fun c hc => hd c (List.mem_reverse.mp hc))
    (fun c hc => he c (List.mem_reverse.mp hc)) hrev
  have := congrArg List.reverse this.1
  simpa using this

/-- muIter_name_inj: trace names at distinct positive positions differ,
because each carries its own counter as a decimal tail. -/
theorem muIter_name_inj (c : Str) (ml : Nat) (j k : Nat) (h : j ≠ k) :
    (muIter c ml (j + 1)).unique_name ≠ (muIter c ml (k + 1)).unique_name := by
  intro he
  rw [muIter_shape, muIter_shape] at he
  have htail := append_dash_tail_inj _ _ _ _
    (decStr_ne_dash (j + 1) (by omega)) (decStr_ne_dash (k + 1) (by omega)) he
  exact h (by
    have := decStr_injective (j + 1) (k + 1) (by omega) (by omega) htail
    omega)

/-- muIter_len_bound: an over-long trace name is recovered at the next
iteration, as long as the counter's decimal form still leaves room for the
hyphen within the 32-character limit. -/
theorem muIter_len_bound (c : Str) (k : Nat)
    (hover : (muIter c 32 k).unique_name.length > 32)
    (hd : (decStr (k + 1)).length ≤ 31) :
    (muIter c 32 (k + 1)).unique_name.length ≤ 32 := by
  rw [muIter_shape]
  rw [List.length_append, List.length_cons]
  have hT : (muTruncated c 32 (muIter c 32 k)).length ≤ 31 - (decStr (k + 1)).length := by
    unfold muTruncated
    rw [if_pos hover, muIter_counter]
    unfold pyTrunc
    split
    · rw [List.length_take]
      omega
    · rename_i hneg
      exfalso
      omega
  have hS : (muStripped c 32 (muIter c 32 k)).length
      ≤ (muTruncated c 32 (muIter c 32 k)).length := by
    unfold muStripped
    split
    · exact Nat.le_refl _
    · split
      · rw [dropLastN, List.length_take]
        omega
      · exact Nat.le_refl _
  omega

/-- muPick selects, from each consecutive pair of trace positions, one whose
name is within the 32-character limit. -/
def muPick (cand : Str) (i : Nat) : Nat :=
  if (muIter cand 32 (2 * i + 1)).unique_name.length ≤ 32 then 2 * i + 1
  else 2 * i + 2

/-- muPick_range: the picked position lies in its pair. -/
theorem muPick_range (cand : Str) (i : Nat) :
    2 * i + 1 ≤ muPick cand i ∧ muPick cand i ≤ 2 * i + 2 := by
  unfold muPick
  split
  · omega
  · omega

/-- muPick_len: the picked trace name fits in 32 characters, provided the
counter's decimal form still fits (position below `10^31`). -/
theorem muPick_len (cand : Str) (i : Nat) (hsmall : 2 * i + 2 < 10 ^ 31) :
    (muIter cand 32 (muPick cand i)).unique_name.length ≤ 32 := by
  unfold muPick
  split
  · assumption
  · rename_i hc
    have hover : (muIter cand 32 (2 * i + 1)).unique_name.length > 32 := by omega
    have hd : (decStr (2 * i + 1 + 1)).length ≤ 31 :=
      decStr_length_le _ (by omega) (by omega)
    exact muIter_len_bound cand (2 * i + 1) hover hd

/-- muRun_terminates: the `make_unique` loop exits within `2n + 4` iterations
for an existing-name set of size `n`, as long as the iteration counter stays
below `10^31` (so its decimal tail still fits the 32-character limit). -/
theorem muRun_terminates (cand : Str) (existing : List Str)
    (h : 2 * existing.length + 4 < 10 ^ 31) :
    ∃ nm, muRun existing cand 32 (2 * existing.length + 4)
      ⟨cand, 1, none⟩ = some nm := by
  by_cases hex : ∃ k, k < 2 * existing.length + 4 ∧
      muCondB existing 32 (muIter cand 32 k) = false
  · obtain ⟨k, hk, hc⟩ := hex
    have := muRun_exits_from existing cand 32 (2 * existing.length + 4) 0
      ⟨k, by omega, by omega, hc⟩
    rw [show muIter cand 32 0 = ⟨cand, 1, none⟩ from rfl] at this
    exact this
  · exfalso
    push_neg at hex
    have hall : ∀ k, k < 2 * existing.length + 4 →
        muCondB existing 32 (muIter cand 32 k) = true := by
      intro k hk
      cases hcb : muCondB existing 32 (muIter cand 32 k)
      · exact absurd hcb (hex k hk)
      · rfl
    have hmem : ∀ i : Fin (existing.length + 1),
        (muIter cand 32 (muPick cand i.val)).unique_name ∈ existing := by
      intro i
      have hi : i.val ≤ existing.length := Nat.lt_succ_iff.mp i.isLt
      have hr := muPick_range cand i.val
      have hklt : muPick cand i.val < 2 * existing.length + 4 := by omega
      have hcond := hall (muPick cand i.val) hklt
      unfold muCondB at hcond
      rw [Bool.or_eq_true] at hcond
      rcases hcond with hm | hlen
      · exact of_decide_eq_true hm
      · exfalso
        have h1 := of_decide_eq_true hlen
        have h2 := muPick_len cand i.val (by omega)
        omega
    have hinj : ∀ i j : Fin (existing.length + 1),
        (muIter cand 32 (muPick cand i.val)).unique_name
          = (muIter cand 32 (muPick cand j.val)).unique_name → i = j := by
      intro i j hij
      by_contra hne
      have hvne : i.val ≠ j.val := fun he => hne (Fin.ext he)
      have h1 := muPick_range cand i.val
      have h2 := muPick_range cand j.val
      have hpne : muPick cand i.val ≠ muPick cand j.val := by omega
      have hinj2 := muIter_name_inj cand 32 (muPick cand i.val - 1)
        (muPick cand j.val - 1) (by omega)
      rw [show muPick cand i.val - 1 + 1 = muPick cand i.val by omega,
        show muPick cand j.val - 1 + 1 = muPick cand j.val by omega] at hinj2
      exact hinj2 hij
    have hcard := @Finset.card_le_card_of_injOn (Fin (existing.length + 1)) Str
      Finset.univ existing.toFinset
      (fun i => (muIter cand 32 (muPick cand i.val)).unique_name)
      (fun i _ => List.mem_toFinset.mpr (hmem i))
      (fun i _ j _ hij => hinj i j hij)
    rw [Finset.card_univ, Fintype.card_fin] at hcard
    have := List.toFinset_card_le existing
    omega

/-- advSet: the finite adversarial existing-name set holding every trace name
of the run on candidate `"u"` up to position `10^31` — enough to push the
counter to 32 decimal digits, after which every generated name is over-long
forever and the loop can no longer exit. -/
def advSet : List Str :=
  (List.range (10 ^ 31 + 1)).map (fun k => (muIter (("u").data) 32 k).unique_name)

/-- Counterexample to C7 as stated: the negation of "make_unique terminates
for every candidate string and every finite set of existing names" — on the
concrete candidate `"u"` and the finite set `advSet`, the loop condition holds
at every trace position (first by membership, later because the counter's
decimal tail alone exceeds 32 characters), so no fuel makes the loop return. -/
theorem c7_counterexample :
    ¬ (∀ (cand : Str) (existing : List Str),
        ∃ fuel nm, muRun existing cand 32 fuel ⟨cand, 1, none⟩ = some nm) := by
  intro h
  obtain ⟨fuel, nm, heq⟩ := h (("u").data) advSet
  have hall : ∀ k, muCondB advSet 32 (muIter (("u").data) 32 k) = true := by
    intro k
    unfold muCondB
    rcases Nat.lt_or_ge k (10 ^ 31 + 1) with hk | hk
    · have hmem : (muIter (("u").data) 32 k).unique_name ∈ advSet :=
        List.mem_map.mpr ⟨k, List.mem_range.mpr hk, rfl⟩
      rw [decide_eq_true hmem, Bool.true_or]
    · obtain ⟨j, rfl⟩ : ∃ j, k = j + 1 := ⟨k - 1, by omega⟩
      have hlen : (muIter (("u").data) 32 (j + 1)).unique_name.length > 32 := by
        rw [muIter_shape, List.length_append, List.length_cons]
        have := decStr_length_ge (j + 1) (by omega)
        omega
      rw [decide_eq_true hlen, Bool.or_true]
  have hnone : muRun advSet (("u").data) 32 fuel (muIter (("u").data) 32 0) = none :=
    muRun_none_from advSet (("u").data) 32 fuel 0 (fun k _ => hall k)
  rw [show muIter (("u").data) 32 0 = ⟨("u").data, 1, none⟩ from rfl, heq] at hnone
  cases hnone

/-- C7 amended: `make_unique` is deterministic — the loop result does not
depend on the fuel used to unroll it — and its loop terminates for every
candidate string and every finite set of existing names *whose size `n`
satisfies `2n + 4 < 10^31`* (within `2n + 4` iterations).  The size bound is
forced by `c7_counterexample`: with on the order of `10^31` names the counter
reaches 32 decimal digits, every generated name then exceeds the 32-character
limit, and the loop spins forever. -/
theorem c7_make_unique_terminates :
    (∀ (cand : Str) (existing : List Str) (f1 f2 : Nat) (nm1 nm2 : Str),
        muRun existing cand 32 f1 ⟨cand, 1, none⟩ = some nm1 →
        muRun existing cand 32 f2 ⟨cand, 1, none⟩ = some nm2 → nm1 = nm2)
    ∧ (∀ (cand : Str) (existing : List Str), 2 * existing.length + 4 < 10 ^ 31 →
        ∃ nm, muRun existing cand 32 (2 * existing.length + 4)
          ⟨cand, 1, none⟩ = some nm) := by
  constructor
  · intro cand existing f1 f2 nm1 nm2 h1 h2
    rcases Nat.le_total f1 f2 with hle | hle
    · have hm := muRun_fuel_mono existing cand 32 f1 _ nm1 h1 f2 hle
      rw [hm] at h2
      exact Option.some.inj h2
    · have hm := muRun_fuel_mono existing cand 32 f2 _ nm2 h2 f1 hle
      rw [hm] at h1
      exact (Option.some.inj h1).symm
  · exact fun cand existing h => muRun_terminates cand existing h

/-- Witness for the amended C7 at a concrete candidate and a concrete
one-element existing set. -/
theorem c7_witness :
    (∃ nm, muRun [("user").data] (("user").data) 32
      (2 * [("user").data].length + 4) ⟨("user").data, 1, none⟩ = some nm)
    ∧ (("user-1").data = ("user-1").data) :=
  ⟨c7_make_unique_terminates.2 (("user").data) [("user").data] (by norm_num),
   c7_make_unique_terminates.1 (("user").data) [("user").data] 6 8
     (("user-1").data) (("user-1").data) (by rfl) (by rfl)⟩

/-- NoGuard r: the result r is not the active-team guard's `ValueError`.  The
claim that the guard error is raised exactly by the guard requires checking
that no other operation in the call graph constructs it. -/
def NoGuard {α : Type} (r : Res α) : Prop :=
  ∀ a ts, r ≠ .error (.activeTeamValueErr a ts)

/-- NoGuard_ok: a success is never the guard error. -/
theorem NoGuard_ok {α : Type} (v : α) : NoGuard (.ok v : Res α) := by
  intro a ts h
  cases h

/-- NoGuard_error: an error built by another constructor is not the guard
error. -/
theorem NoGuard_error {α : Type} (e : Err)
    (h : ∀ a ts, e = .activeTeamValueErr a ts → False) :
    NoGuard (.error e : Res α) := by
  intro a ts hh
  injection hh with hh
  exact h a ts hh

/-- NoGuard_propagate: re-raising an error from a guard-free computation stays
guard-free. -/
theorem NoGuard_propagate {α β : Type} {r : Res α} {e : Err} (hr : NoGuard r)
    (he : r = .error e) : NoGuard (.error e : Res β) := by
  intro a ts h
  injection h with h
  exact hr a ts (by rw [he, h])

/-- mkUnicodeName never raises the guard error. -/
theorem mkUnicodeName_ng (l : Str) : NoGuard (mkUnicodeName l) := by
  unfold mkUnicodeName
  split
  · exact NoGuard_error _ (by intro a ts h; cases h)
  · exact NoGuard_ok _

/-- mkUbuntuName never raises the guard error. -/
theorem mkUbuntuName_ng (l : Str) : NoGuard (mkUbuntuName l) := by
  unfold mkUbuntuName
  split
  · exact NoGuard_ok _
  · exact NoGuard_error _ (by intro a ts h; cases h)

/-- mkUserStatus never raises the guard error. -/
theorem mkUserStatus_ng (l : Str) : NoGuard (mkUserStatus l) := by
  unfold mkUserStatus
  split
  · exact NoGuard_ok _
  · exact NoGuard_error _ (by intro a ts h; cases h)

/-- mkUserType never raises the guard error. -/
theorem mkUserType_ng (l : Str) : NoGuard (mkUserType l) := by
  unfold mkUserType
  split
  · exact NoGuard_ok _
  · exact NoGuard_error _ (by intro a ts h; cases h)

/-- mkStsciUuid never raises the guard error. -/
theorem mkStsciUuid_ng (l : Str) : NoGuard (mkStsciUuid l) := by
  unfold mkStsciUuid
  dsimp only
  split
  · exact NoGuard_ok _
  · split
    · exact NoGuard_ok _
    · exact NoGuard_error _ (by intro a ts h; cases h)

/-- mkRangedNat never raises the guard error. -/
theorem mkRangedNat_ng (cls : RangedCls) (v : Nat) : NoGuard (mkRangedNat cls v) := by
  unfold mkRangedNat
  split
  · exact NoGuard_error _ (by intro a ts h; cases h)
  · exact NoGuard_ok _

/-- user_exist never raises the guard error. -/
theorem user_exist_ng (id id_type : Str) (ut : List UserRec) :
    NoGuard (user_exist id id_type ut) := by
  unfold user_exist
  split
  · exact NoGuard_ok _
  · split
    · exact NoGuard_ok _
    · split
      · exact NoGuard_ok _
      · exact NoGuard_error _ (by intro a ts h; cases h)

/-- get_new_uid never raises the guard error. -/
theorem get_new_uid_ng (ty : Str) (ut : List UserRec) : NoGuard (get_new_uid ty ut) := by
  unfold get_new_uid
  split
  · exact mkRangedNat_ng _ _
  · split
    · exact mkRangedNat_ng _ _
    · exact NoGuard_error _ (by intro a ts h; cases h)

/-- get_new_gid never raises the guard error. -/
theorem get_new_gid_ng (ty : Str) (gt : List GroupRec) : NoGuard (get_new_gid ty gt) := by
  unfold get_new_gid
  split
  · exact mkRangedNat_ng _ _
  · split
    · exact mkRangedNat_ng _ _
    · exact NoGuard_error _ (by intro a ts h; cases h)

/-- make_unique never raises the guard error. -/
theorem make_unique_ng (fuel : Nat) (cand : Str) (existing : List Str) (ml : Nat) :
    NoGuard (make_unique fuel cand existing ml) := by
  unfold make_unique
  split
  · exact NoGuard_error _ (by intro a ts h; cases h)
  · split
    · exact NoGuard_ok _
    · exact NoGuard_error _ (by intro a ts h; cases h)

/-- to_valid_username never raises the guard error. -/
theorem to_valid_username_ng (env : SpawnEnv) :
    ∀ (fuel : Nat) (nm : Str) (existing : List Str) (kind : Str),
      NoGuard (to_valid_username env fuel nm existing kind) := by
  intro fuel
  induction fuel with
  | zero =>
    intro nm existing kind
    exact NoGuard_error _ (by intro a ts h; cases h)
  | succ fuel ih =>
    intro nm existing kind
    unfold to_valid_username
    dsimp only
    repeat' split
    all_goals try exact NoGuard_ok _
    all_goals try exact NoGuard_error _ (fun a ts h => Err.noConfusion h)
    all_goals try exact ih _ _ _
    all_goals rename_i heq
    all_goals first
      | exact NoGuard_propagate (mkUnicodeName_ng _) heq
      | exact NoGuard_propagate (make_unique_ng _ _ _ _) heq

/-- NoGuard_bind: a guard-free computation continued guard-free stays
guard-free. -/
theorem NoGuard_bind {α β : Type} (r : Res α) (g : α → Res β) (hr : NoGuard r)
    (hg : ∀ v, NoGuard (g v)) :
    NoGuard (match r with | .error e => .error e | .ok v => g v) := by
  cases r with
  | error e =>
    intro a ts h
    injection h with h
    exact hr a ts (by rw [h])
  | ok v => exact hg v

/-- NoGuard_opt: case split over an optional argument. -/
theorem NoGuard_opt {α β : Type} (o : Option β) (f : Res α) (g : β → Res α)
    (hf : NoGuard f) (hg : ∀ b, NoGuard (g b)) :
    NoGuard (match o with | none => f | some b => g b) := by
  cases o
  · exact hf
  · exact hg _

/-- NoGuard_ite: case split over a conditional. -/
theorem NoGuard_ite {α : Type} (c : Prop) [Decidable c] (f g : Res α)
    (hf : NoGuard f) (hg : NoGuard g) : NoGuard (if c then f else g) := by
  split
  · exact hf
  · exact hg

/-- NoGuard_bind2: pair-pattern variant of NoGuard_bind. -/
theorem NoGuard_bind2 {α β γ : Type} (r : Res (α × β)) (g : α → β → Res γ)
    (hr : NoGuard r) (hg : ∀ a b, NoGuard (g a b)) :
    NoGuard (match r with | .error e => .error e | .ok (a, b) => g a b) := by
  cases r with
  | error e =>
    intro a ts h
    injection h with h
    exact hr a ts (by rw [h])
  | ok v =>
    obtain ⟨a, b⟩ := v
    exact hg a b

/-- get_new_username never raises the guard error. -/
theorem get_new_username_ng (env : SpawnEnv) (ezid : Str) (existing : Option (List Str))
    (ut : List UserRec) : NoGuard (get_new_username env ezid existing ut) := by
  unfold get_new_username
  exact to_valid_username_ng env 3 ezid _ _

/-- get_new_groupname never raises the guard error. -/
theorem get_new_groupname_ng (env : SpawnEnv) (teamname : Str)
    (existing : Option (List Str)) (gt : List GroupRec) :
    NoGuard (get_new_groupname env teamname existing gt) := by
  unfold get_new_groupname
  exact to_valid_username_ng env 3 teamname _ _

set_option maxRecDepth 8000

/-- add_user never raises the guard error. -/
theorem add_user_ng (env : SpawnEnv) (uuid ezid : Str) (ut1 et1 : Bool)
    (username : Option Str) (uid gid : Option Nat) (usertype : Str)
    (existing : Option (List Str)) (ut : List UserRec) :
    NoGuard (add_user env uuid ezid ut1 et1 username uid gid usertype existing ut) := by
  unfold add_user
  repeat' split
  all_goals try exact NoGuard_ok _
  all_goals try exact NoGuard_error _ (fun a ts h => Err.noConfusion h)
  all_goals rename_i heq
  all_goals repeat' split at heq
  all_goals first
    | exact NoGuard_propagate (NoGuard_ok _) heq
    | exact NoGuard_propagate (NoGuard_error _ (fun a ts h => Err.noConfusion h)) heq
    | exact NoGuard_propagate (user_exist_ng _ _ _) heq
    | exact NoGuard_propagate (get_new_username_ng _ _ _ _) heq
    | exact NoGuard_propagate (get_new_uid_ng _ _) heq
    | exact NoGuard_propagate (mkRangedNat_ng _ _) heq
    | exact NoGuard_propagate (mkUbuntuName_ng _) heq
    | exact NoGuard_propagate (mkStsciUuid_ng _) heq
    | exact NoGuard_propagate (mkUnicodeName_ng _) heq
    | exact NoGuard_propagate (mkUserStatus_ng _) heq
    | exact NoGuard_propagate (mkUserType_ng _) heq
    | (rename_i heq2
       first
         | exact NoGuard_propagate (NoGuard_propagate (mkRangedNat_ng _ _) heq2) heq
         | exact NoGuard_propagate (NoGuard_propagate (get_user_info_ng _ _ _) heq2) heq
         | exact NoGuard_propagate (NoGuard_propagate (get_new_uid_ng _ _) heq2) heq
         | exact NoGuard_propagate (NoGuard_propagate (get_new_username_ng _ _ _ _) heq2) heq
         | exact NoGuard_propagate (NoGuard_propagate (mkStsciUuid_ng _) heq2) heq
         | exact NoGuard_propagate (NoGuard_propagate (mkUnicodeName_ng _) heq2) heq
         | exact NoGuard_propagate (NoGuard_propagate (get_new_groupname_ng _ _ _ _) heq2) heq
         | exact NoGuard_propagate (NoGuard_propagate (get_new_gid_ng _ _) heq2) heq
         | exact NoGuard_propagate
             (NoGuard_propagate
               (NoGuard_error _ (fun a ts h => Err.noConfusion h)) heq2) heq)

/-- create_new_group never raises the guard error. -/
theorem create_new_group_ng (env : SpawnEnv) (teamname : Str)
    (groupname : Option Str) (gid : Option Nat) (usertype : Str)
    (existing : Option (List Str)) (gt : List GroupRec) :
    NoGuard (create_new_group env teamname groupname gid usertype existing gt) := by
  unfold create_new_group
  repeat' split
  all_goals try exact NoGuard_ok _
  all_goals try exact NoGuard_error _ (fun a ts h => Err.noConfusion h)
  all_goals rename_i heq
  all_goals repeat' split at heq
  all_goals first
    | exact NoGuard_propagate (NoGuard_ok _) heq
    | exact NoGuard_propagate (NoGuard_error _ (fun a ts h => Err.noConfusion h)) heq
    | exact NoGuard_propagate (get_new_groupname_ng _ _ _ _) heq
    | exact NoGuard_propagate (get_new_gid_ng _ _) heq
    | exact NoGuard_propagate (mkUserStatus_ng _) heq
    | exact NoGuard_propagate (mkUserType_ng _) heq
    | exact NoGuard_propagate (mkUbuntuName_ng _) heq
    | (rename_i heq2
       first
         | exact NoGuard_propagate (NoGuard_propagate (mkRangedNat_ng _ _) heq2) heq
         | exact NoGuard_propagate (NoGuard_propagate (get_user_info_ng _ _ _) heq2) heq
         | exact NoGuard_propagate (NoGuard_propagate (get_new_uid_ng _ _) heq2) heq
         | exact NoGuard_propagate (NoGuard_propagate (get_new_username_ng _ _ _ _) heq2) heq
         | exact NoGuard_propagate (NoGuard_propagate (mkStsciUuid_ng _) heq2) heq
         | exact NoGuard_propagate (NoGuard_propagate (mkUnicodeName_ng _) heq2) heq
         | exact NoGuard_propagate (NoGuard_propagate (get_new_groupname_ng _ _ _ _) heq2) heq
         | exact NoGuard_propagate (NoGuard_propagate (get_new_gid_ng _ _) heq2) heq
         | exact NoGuard_propagate
             (NoGuard_propagate
               (NoGuard_error _ (fun a ts h => Err.noConfusion h)) heq2) heq)

/-- userIdPair never raises the guard error. -/
theorem userIdPair_ng (r : UserRec) : NoGuard (userIdPair r) := by
  unfold userIdPair
  refine NoGuard_ite _ _ _ ?_ (NoGuard_ite _ _ _ ?_ (NoGuard_ok _))
  · split
    · rename_i e heq
      exact NoGuard_propagate (mkRangedNat_ng _ _) heq
    · split
      · rename_i e heq
        exact NoGuard_propagate (mkRangedNat_ng _ _) heq
      · exact NoGuard_ok _
  · split
    · rename_i e heq
      exact NoGuard_propagate (mkRangedNat_ng _ _) heq
    · split
      · rename_i e heq
        exact NoGuard_propagate (mkRangedNat_ng _ _) heq
      · exact NoGuard_ok _

/-- validUser never raises the guard error. -/
theorem validUser_ng (r : UserRec) : NoGuard (validUser r) := by
  unfold validUser
  split
  · rename_i e heq
    exact NoGuard_propagate (mkStsciUuid_ng _) heq
  · split
    · rename_i e heq
      exact NoGuard_propagate (mkUnicodeName_ng _) heq
    · split
      · rename_i e heq
        exact NoGuard_propagate (mkUbuntuName_ng _) heq
      · split
        · rename_i e heq
          exact NoGuard_propagate (userIdPair_ng _) heq
        · split
          · rename_i e heq
            exact NoGuard_propagate (mkUserStatus_ng _) heq
          · split
            · rename_i e heq
              exact NoGuard_propagate (mkUserType_ng _) heq
            · exact NoGuard_ok _

/-- get_user_info never raises the guard error. -/
theorem get_user_info_ng (id id_type : Str) :
    ∀ ut : List UserRec, NoGuard (get_user_info id id_type ut) := by
  intro ut
  induction ut with
  | nil => exact NoGuard_error _ (fun a ts h => Err.noConfusion h)
  | cons r rest ih =>
    unfold get_user_info
    split
    · exact NoGuard_error _ (fun a ts h => Err.noConfusion h)
    · split
      · exact validUser_ng _
      · exact ih

/-- get_group_info never raises the guard error. -/
theorem get_group_info_ng (id id_type : Str) :
    ∀ gt : List GroupRec, NoGuard (get_group_info id id_type gt) := by
  intro gt
  induction gt with
  | nil => exact NoGuard_error _ (fun a ts h => Err.noConfusion h)
  | cons r rest ih =>
    unfold get_group_info
    repeat' split
    all_goals try exact NoGuard_ok _
    all_goals try exact NoGuard_error _ (fun a ts h => Err.noConfusion h)
    all_goals try exact ih
    all_goals rename_i heq
    all_goals first
      | exact NoGuard_propagate (mkUnicodeName_ng _) heq
      | exact NoGuard_propagate (mkUbuntuName_ng _) heq
      | exact NoGuard_propagate
          (NoGuard_ite _ _ _ (mkRangedNat_ng _ _)
            (NoGuard_ite _ _ _ (mkRangedNat_ng _ _) (NoGuard_ok _))) heq
      | exact NoGuard_propagate (mkUserStatus_ng _) heq
      | exact NoGuard_propagate (mkUserType_ng _) heq

/-- lookup_gid never raises the guard error. -/
theorem lookup_gid_ng (name : Str) : ∀ gt : List GroupRec,
    NoGuard (lookup_gid name gt) := by
  intro gt
  induction gt with
  | nil => exact NoGuard_error _ (fun a ts h => Err.noConfusion h)
  | cons r rest ih =>
    unfold lookup_gid
    split
    · exact NoGuard_ok _
    · exact ih

/-- get_users_of_group never raises the guard error. -/
theorem get_users_of_group_ng (g : Str) : ∀ gt : List GroupRec,
    NoGuard (get_users_of_group g gt) := by
  intro gt
  induction gt with
  | nil => exact NoGuard_error _ (fun a ts h => Err.noConfusion h)
  | cons r rest ih =>
    unfold get_users_of_group
    split
    · exact NoGuard_ok _
    · exact ih

/-- addLoop never raises the guard error. -/
theorem addLoop_ng (u g : Str) : ∀ gt : List GroupRec, NoGuard (addLoop u g gt) := by
  intro gt
  induction gt with
  | nil => exact NoGuard_ok _
  | cons r rest ih =>
    unfold addLoop
    repeat' split
    all_goals try exact NoGuard_ok _
    all_goals try exact NoGuard_error _ (fun a ts h => Err.noConfusion h)
    all_goals rename_i heq
    all_goals exact NoGuard_propagate ih heq

/-- add_user_to_group never raises the guard error. -/
theorem add_user_to_group_ng (u g : Str) (gt : List GroupRec) :
    NoGuard (add_user_to_group u g gt) := by
  unfold add_user_to_group
  split
  · exact addLoop_ng u g gt
  · exact NoGuard_error _ (fun a ts h => Err.noConfusion h)

/-- remove_user_from_group never raises the guard error. -/
theorem remove_user_from_group_ng (u g : Str) (gt : List GroupRec) :
    NoGuard (remove_user_from_group u g gt) := by
  unfold remove_user_from_group
  split
  · exact NoGuard_ok _
  · exact NoGuard_error _ (fun a ts h => Err.noConfusion h)

/-- add_member never raises the guard error. -/
theorem add_member_ng (u g : Str) (st : St) : NoGuard (add_member u g st) := by
  unfold add_member
  repeat' split
  all_goals try exact NoGuard_ok _
  all_goals rename_i heq
  all_goals first
    | exact NoGuard_propagate (add_user_to_group_ng _ _ _) heq
    | exact NoGuard_propagate (get_group_info_ng _ _ _) heq

/-- remove_member never raises the guard error. -/
theorem remove_member_ng (u g : Str) (st : St) : NoGuard (remove_member u g st) := by
  unfold remove_member
  repeat' split
  all_goals try exact NoGuard_ok _
  all_goals rename_i heq
  all_goals first
    | exact NoGuard_propagate (remove_user_from_group_ng _ _ _) heq
    | exact NoGuard_propagate (get_group_info_ng _ _ _) heq

/-- teamnames_to_groupnames never raises the guard error. -/
theorem teamnames_to_groupnames_ng (gt : List GroupRec) : ∀ ts1 : List Str,
    NoGuard (teamnames_to_groupnames ts1 gt) := by
  intro ts1
  induction ts1 with
  | nil => exact NoGuard_ok _
  | cons t rest ih =>
    unfold teamnames_to_groupnames
    repeat' split
    all_goals try exact NoGuard_ok _
    all_goals rename_i heq
    all_goals first
      | exact NoGuard_propagate (get_group_info_ng _ _ _) heq
      | exact NoGuard_propagate ih heq

/-- reconcileLoop never raises the guard error. -/
theorem reconcileLoop_ng (u : Str) (tg : List Str) : ∀ (gns : List Str) (st : St),
    NoGuard (reconcileLoop u tg gns st) := by
  intro gns
  induction gns with
  | nil => intro st; exact NoGuard_ok _
  | cons gn rest ih =>
    intro st
    unfold reconcileLoop
    repeat' split
    all_goals try exact ih _
    all_goals rename_i heq
    all_goals exact NoGuard_propagate (remove_member_ng _ _ _) heq

/-- remove_obsolete_group_memberships never raises the guard error. -/
theorem remove_obsolete_ng (u : Str) (tn : List Str) (st : St) :
    NoGuard (remove_obsolete_group_memberships u tn st) := by
  unfold remove_obsolete_group_memberships
  repeat' split
  all_goals try exact reconcileLoop_ng _ _ _ _
  all_goals rename_i heq
  all_goals exact NoGuard_propagate (teamnames_to_groupnames_ng _ _) heq

/-- create_or_fetch_user never raises the guard error. -/
theorem create_or_fetch_user_ng (env : SpawnEnv) (uu ez : Str) (st : St) :
    NoGuard (create_or_fetch_user env uu ez st) := by
  unfold create_or_fetch_user
  dsimp only
  repeat' split
  all_goals try exact NoGuard_ok _
  all_goals rename_i heq
  all_goals first
    | exact absurd heq (fun hh => Except.noConfusion hh)
    | exact NoGuard_propagate (NoGuard_ok _) heq
    | exact NoGuard_propagate (user_exist_ng _ _ _) heq
    | exact NoGuard_propagate (add_user_ng _ _ _ _ _ _ _ _ _ _ _) heq
    | exact NoGuard_propagate (mkUnicodeName_ng _) heq
    | exact NoGuard_propagate (mkUbuntuName_ng _) heq
    | exact NoGuard_propagate (mkRangedNat_ng _ _) heq
    | exact NoGuard_propagate (create_new_group_ng _ _ _ _ _ _ _) heq
    | exact NoGuard_propagate (add_member_ng _ _ _) heq
    | exact NoGuard_propagate (get_user_info_ng _ _ _) heq
    | exact NoGuard_propagate (get_group_info_ng _ _ _) heq

/-- create_or_fetch_group never raises the guard error. -/
theorem create_or_fetch_group_ng (env : SpawnEnv) (un tn : Str) (st : St) :
    NoGuard (create_or_fetch_group env un tn st) := by
  unfold create_or_fetch_group
  dsimp only
  repeat' split
  all_goals try exact NoGuard_ok _
  all_goals try exact add_member_ng _ _ _
  all_goals rename_i heq
  all_goals first
    | exact absurd heq (fun hh => Except.noConfusion hh)
    | exact NoGuard_propagate (NoGuard_ok _) heq
    | exact NoGuard_propagate (create_new_group_ng _ _ _ _ _ _ _) heq
    | exact NoGuard_propagate (mkRangedNat_ng _ _) heq
    | exact NoGuard_propagate (add_user_ng _ _ _ _ _ _ _ _ _ _ _) heq
    | exact NoGuard_propagate (add_member_ng _ _ _) heq
    | exact NoGuard_propagate (mkUbuntuName_ng _) heq
    | exact NoGuard_propagate (get_group_info_ng _ _ _) heq
    | exact NoGuard_propagate (get_user_info_ng _ _ _) heq
    | exact NoGuard_propagate (get_users_of_group_ng _ _) heq
    | (refine NoGuard_propagate ?_ heq
       refine NoGuard_ite _ _ _ ?_ (NoGuard_ok _)
       split
       · rename_i e2 heq2
         exact NoGuard_propagate (mkRangedNat_ng _ _) heq2
       · split
         · rename_i e2 heq2
           exact NoGuard_propagate (get_user_info_ng _ _ _) heq2
         · exact NoGuard_ok _)

/-- teamsLoop never raises the guard error. -/
theorem teamsLoop_ng (env : SpawnEnv) (un : Str) : ∀ (ts1 : List Str) (st : St),
    NoGuard (teamsLoop env un ts1 st) := by
  intro ts1
  induction ts1 with
  | nil => intro st; exact NoGuard_ok _
  | cons t rest ih =>
    intro st
    unfold teamsLoop
    repeat' split
    all_goals try exact ih _
    all_goals rename_i heq
    all_goals exact NoGuard_propagate (create_or_fetch_group_ng _ _ _ _) heq

/-- preSpawn never raises the guard error. -/
theorem preSpawn_ng (env : SpawnEnv) (uu ez : Str) (ts1 : List Str) (st : St) :
    NoGuard (preSpawn env uu ez ts1 st) := by
  unfold preSpawn
  repeat' split
  all_goals try exact NoGuard_ok _
  all_goals rename_i heq
  all_goals first
    | exact NoGuard_propagate (create_or_fetch_user_ng _ _ _ _) heq
    | exact NoGuard_propagate (teamsLoop_ng _ _ _ _) heq
    | exact NoGuard_propagate (remove_obsolete_ng _ _ _) heq

/-- lookupGids never raises the guard error. -/
theorem lookupGids_ng (gt : List GroupRec) : ∀ gns : List Str,
    NoGuard (lookupGids gt gns) := by
  intro gns
  induction gns with
  | nil => exact NoGuard_ok _
  | cons gn rest ih =>
    unfold lookupGids
    repeat' split
    all_goals try exact NoGuard_ok _
    all_goals rename_i heq
    all_goals first
      | exact NoGuard_propagate (lookup_gid_ng _ _) heq
      | exact NoGuard_propagate ih heq

/-- C4: in `_locked_get_spawn_info`, once the pre-guard phase has succeeded, a
typed active team that is neither an element of the typed team list nor equal
to the user's ezid makes the call fail with the `ValueError` carrying exactly
the offending active team and the user's team list; and whenever the active
team is in the team list or equals the ezid, that error is never raised by any
part of the call (every other error site uses a different exception).  The
hypotheses say the ezid is a fixed point of `TeamName` coercion, which holds
for every ezid that entered through `get_spawn_info`'s input coercion. -/
theorem c4_active_team_guard (env : SpawnEnv) (uu ez atm : Str) (teams : List Str)
    (st : St) (hlen : ez.length < 128) (hfix : sanitizeName ez = ez) :
    ((atm ∉ teams ∧ atm ≠ ez) →
      ∀ r st1, preSpawn env uu ez teams st = .ok (r, st1) →
        locked_get_spawn_info env uu ez atm teams st
          = .error (.activeTeamValueErr atm teams))
    ∧ ((atm ∈ teams ∨ atm = ez) →
        NoGuard (locked_get_spawn_info env uu ez atm teams st)) := by
  have hmk : mkUnicodeName ez = .ok ez := by
    unfold mkUnicodeName
    rw [if_neg (by omega), hfix]
  constructor
  · rintro ⟨hnotin, hne⟩ r st1 hpre
    obtain ⟨username, uid⟩ := r
    unfold locked_get_spawn_info
    rw [hpre]
    dsimp only
    rw [hmk]
    dsimp only
    have hcond : atm ∉ teams ++ [ez] := by
      rw [List.mem_append, List.mem_singleton]
      rintro (h | h)
      · exact hnotin h
      · exact hne h
    rw [if_neg hcond]
  · intro hmem
    unfold locked_get_spawn_info
    cases hpre : preSpawn env uu ez teams st with
    | error e => exact NoGuard_propagate (preSpawn_ng env uu ez teams st) hpre
    | ok p =>
      obtain ⟨⟨username, uid⟩, st3⟩ := p
      dsimp only
      rw [hmk]
      dsimp only
      have hcond : atm ∈ teams ++ [ez] := by
        rw [List.mem_append, List.mem_singleton]
        exact hmem
      rw [if_pos hcond]
      cases hg : get_group_info atm (("teamname").data) st3.groups with
      | error e => exact NoGuard_propagate (get_group_info_ng _ _ _) hg
      | ok g_info =>
        cases hl : lookupGids st3.groups (get_groups_of_user username st3.groups) with
        | error e => exact NoGuard_propagate (lookupGids_ng _ _) hl
        | ok gids => exact NoGuard_ok _

/-- demoGroupAlice: alice's personal group record. -/
def demoGroupAlice : GroupRec :=
  { teamname := ("alice").data, groupname := ("alice").data, password := ("x").data,
    gid := 1000, grouplist := [("alice").data],
    status := ("active").data, usertype := ("individual").data }

/-- demoStA: a concrete state holding the user alice and her personal group. -/
def demoStA : St := ⟨[demoUserA], [demoGroupAlice], 0⟩

/-- Witness for C4 at a concrete state: with `active_team="zed"`, no teams,
and ezid `"alice"`, the call fails with the guard `ValueError` naming `"zed"`
and the empty team list; with `active_team="alice"` (the ezid escape hatch)
that error cannot be raised. -/
theorem c4_witness :
    locked_get_spawn_info demoEnv (("aaaaaaaa-bbbb-cccc-dddd-eeeeeeeeeeee").data)
      (("alice").data) (("zed").data) [] demoStA
      = .error (.activeTeamValueErr (("zed").data) [])
    ∧ NoGuard (locked_get_spawn_info demoEnv
        (("aaaaaaaa-bbbb-cccc-dddd-eeeeeeeeeeee").data)
        (("alice").data) (("alice").data) [] demoStA) := by
  constructor
  · exact (c4_active_team_guard demoEnv _ _ _ [] demoStA (by decide) (by decide)).1
      (by decide) ((("alice").data, 1000)) demoStA (by rfl)
  · exact (c4_active_team_guard demoEnv _ _ _ [] demoStA (by decide) (by decide)).2
      (Or.inr rfl)

/-- mkUbuntuName_ok: UbuntuName construction returns its input unchanged on
success. -/
theorem mkUbuntuName_ok {l r : Str} (h : mkUbuntuName l = .ok r) : r = l := by
  unfold mkUbuntuName at h
  split at h
  · injection h with h
    exact h.symm
  · cases h

/-- make_unique_not_mem: a successful make_unique result is a fresh name. -/
theorem make_unique_not_mem {fuel : Nat} {cand nm : Str} {ex : List Str} {ml : Nat}
    (h : make_unique fuel cand ex ml = .ok nm) : nm ∉ ex := by
  unfold make_unique at h
  split at h
  · cases h
  · rename_i nm2 hrun
    split at h
    · injection h with h
      subst h
      exact (muRun_exit_cond ex cand ml _ _ _ hrun).1
    · cases h

/-- to_valid_username_not_mem: a successful to_valid_username result avoids
every supplied existing name. -/
theorem to_valid_username_not_mem (env : SpawnEnv) :
    ∀ (fuel : Nat) (nm : Str) (ex : List Str) (kind r : Str),
      to_valid_username env fuel nm ex kind = .ok r → r ∉ ex := by
  intro fuel
  induction fuel with
  | zero =>
    intro nm ex kind r h
    cases h
  | succ f ih =>
    intro nm ex kind r h
    unfold to_valid_username at h
    dsimp only at h
    split at h
    · split at h
      · cases h
      · exact ih _ _ _ _ h
    · split at h
      · cases h
      · rename_i nm2 hmu
        repeat' split at h
        all_goals first
          | exact absurd h (fun hh => Except.noConfusion hh)
          | (have h2 : nm2 = r := Except.ok.inj h
             subst h2
             exact make_unique_not_mem hmu)

/-- get_new_groupname_fresh: with no explicit existing-name set, a new
groupname avoids every stored groupname. -/
theorem get_new_groupname_fresh {env : SpawnEnv} {t gn0 : Str} {gt : List GroupRec}
    (h : get_new_groupname env t none gt = .ok gn0) : gn0 ∉ all_groupnames gt := by
  unfold get_new_groupname at h
  dsimp only at h
  exact to_valid_username_not_mem env 3 t _ _ _ h

/-- get_group_info_teamname: a successful teamname lookup pins an underlying
record with that exact stored teamname, whose (validated, hence unchanged)
groupname the result carries. -/
theorem get_group_info_teamname {t : Str} :
    ∀ {gt : List GroupRec} {g : GroupRec},
      get_group_info t (("teamname").data) gt = .ok g →
      ∃ r ∈ gt, r.teamname = t ∧ g.groupname = r.groupname := by
  intro gt
  induction gt with
  | nil =>
    intro g h
    cases h
  | cons r rest ih =>
    intro g h
    unfold get_group_info at h
    have hgf : groupField r (("teamname").data) = some r.teamname := by rfl
    rw [hgf] at h
    dsimp only at h
    split at h
    · rename_i hteq
      split at h
      · cases h
      · split at h
        · cases h
        · rename_i gn hgn
          split at h
          · cases h
          · split at h
            · cases h
            · split at h
              · cases h
              · have h2 := Except.ok.inj h
                subst h2
                exact ⟨r, List.mem_cons_self r rest, hteq,
                  (mkUbuntuName_ok hgn).symm ▸ rfl⟩
    · obtain ⟨r2, hm, hr2⟩ := ih h
      exact ⟨r2, List.mem_cons_of_mem r hm, hr2⟩

/-- get_users_of_group_spec: a successful member-list lookup returns the
grouplist of a record with the requested groupname. -/
theorem get_users_of_group_spec {gn : Str} :
    ∀ {gt : List GroupRec} {members : List Str},
      get_users_of_group gn gt = .ok members →
      ∃ r ∈ gt, r.groupname = gn ∧ members = r.grouplist := by
  intro gt
  induction gt with
  | nil =>
    intro members h
    cases h
  | cons r rest ih =>
    intro members h
    unfold get_users_of_group at h
    split at h
    · rename_i hrg
      have h2 := Except.ok.inj h
      subst h2
      exact ⟨r, List.mem_cons_self r rest, hrg, rfl⟩
    · obtain ⟨r2, hm, hr2⟩ := ih h
      exact ⟨r2, List.mem_cons_of_mem r hm, hr2⟩

/-- f2_mem_right: a member of the right list of a Forall₂ has a related
partner on the left. -/
theorem f2_mem_right {α β : Type} {R : α → β → Prop} :
    ∀ {l1 : List α} {l2 : List β}, List.Forall₂ R l1 l2 →
      ∀ b ∈ l2, ∃ a ∈ l1, R a b := by
  intro l1 l2 hf
  induction hf with
  | nil =>
    intro b hb
    cases hb
  | cons hr hf2 ih =>
    intro b hb
    rcases List.mem_cons.mp hb with hb1 | hb2
    · subst hb1
      exact ⟨_, List.mem_cons_self _ _, hr⟩
    · obtain ⟨a, ha, har⟩ := ih b hb2
      exact ⟨a, List.mem_cons_of_mem _ ha, har⟩

/-- f2_mem_left: a member of the left list of a Forall₂ has a related partner
on the right. -/
theorem f2_mem_left {α β : Type} {R : α → β → Prop} :
    ∀ {l1 : List α} {l2 : List β}, List.Forall₂ R l1 l2 →
      ∀ a ∈ l1, ∃ b ∈ l2, R a b := by
  intro l1 l2 hf
  induction hf with
  | nil =>
    intro a ha
    cases ha
  | cons hr hf2 ih =>
    intro a ha
    rcases List.mem_cons.mp ha with ha1 | ha2
    · subst ha1
      exact ⟨_, List.mem_cons_self _ _, hr⟩
    · obtain ⟨b, hb, hbr⟩ := ih a ha2
      exact ⟨b, List.mem_cons_of_mem _ hb, hbr⟩

/-- f2_trans: composition of two Forall₂ relations along a middle list. -/
theorem f2_trans {α : Type} {R S T : α → α → Prop}
    (hc : ∀ a b c, R a b → S b c → T a c) :
    ∀ {l1 l2 l3 : List α}, List.Forall₂ R l1 l2 → List.Forall₂ S l2 l3 →
      List.Forall₂ T l1 l3 := by
  intro l1 l2 l3 h1
  induction h1 generalizing l3 with
  | nil =>
    intro h2
    cases h2
    exact .nil
  | cons hr h1tail ih =>
    intro h2
    cases h2 with
    | cons hs h2tail => exact .cons (hc _ _ _ hr hs) (ih h2tail)

/-- f2_map_eq: a Forall₂ whose relation preserves a projection preserves the
mapped list. -/
theorem f2_map_eq {α β : Type} {R : α → α → Prop} (f : α → β)
    (hpres : ∀ a b, R a b → f b = f a) :
    ∀ {l1 l2 : List α}, List.Forall₂ R l1 l2 → l2.map f = l1.map f := by
  intro l1 l2 hf
  induction hf with
  | nil => rfl
  | cons hr hf2 ih => simp [ih, hpres _ _ hr]

/-- nodup_append_one: appending a fresh element keeps a list duplicate-free. -/
theorem nodup_append_one {α : Type} {l : List α} {a : α} (hnd : l.Nodup)
    (hna : a ∉ l) : (l ++ [a]).Nodup := by
  simp [List.nodup_append, hnd, hna]

/-- addRel: the per-record effect of a single `add_user_to_group` update for
`un` targeting groupname `gn` (on a table with unique groupnames). -/
def addRel (un gn : Str) (g g2 : GroupRec) : Prop :=
  g2.teamname = g.teamname ∧ g2.groupname = g.groupname ∧
  ((g.groupname ≠ gn ∧ g2.grouplist = g.grouplist) ∨
   (g.groupname = gn ∧ un ∈ g2.grouplist ∧
     (g2.grouplist = g.grouplist ∨
      (un ∉ g.grouplist ∧ g2.grouplist = g.grouplist ++ [un]))))

/-- remRel: the per-record effect of a single `remove_user_from_group` update
for `un` targeting groupname `gn` (on a table with unique groupnames). -/
def remRel (un gn : Str) (g g2 : GroupRec) : Prop :=
  g2.teamname = g.teamname ∧ g2.groupname = g.groupname ∧
  ((g.groupname ≠ gn ∧ g2.grouplist = g.grouplist) ∨
   (g.groupname = gn ∧
     ((un ∉ g.grouplist ∧ g2.grouplist = g.grouplist) ∨
      (un ∈ g.grouplist ∧ g2.grouplist = g.grouplist.erase un))))

/-- addLoop_f2: a successful addLoop relates every record to its updated form
by `addRel`. -/
theorem addLoop_f2 {un gn : Str} :
    ∀ {gt gt2 : List GroupRec}, addLoop un gn gt = .ok gt2 →
      (all_groupnames gt).Nodup →
      List.Forall₂ (addRel un gn) gt gt2 := by
  intro gt
  induction gt with
  | nil =>
    intro gt2 h hnd
    have h2 := Except.ok.inj h
    subst h2
    exact .nil
  | cons r rest ih =>
    intro gt2 h hnd
    have hnd2 : (all_groupnames (r :: rest)).Nodup := hnd
    rw [show all_groupnames (r :: rest) = r.groupname :: all_groupnames rest from rfl,
      List.nodup_cons] at hnd2
    unfold addLoop at h
    split at h
    · rename_i hrg
      split at h
      · cases h
      · rename_i hlen
        have htail : List.Forall₂ (addRel un gn) rest rest := by
          rw [List.forall₂_same]
          intro x hx
          refine ⟨rfl, rfl, Or.inl ⟨?_, rfl⟩⟩
          intro hxg
          apply hnd2.1
          have hxm : x.groupname ∈ all_groupnames rest :=
            List.mem_map_of_mem (fun r2 => r2.groupname) hx
          rw [hrg, hxg.symm]
          exact hxm
        split at h
        · rename_i hmem
          have h2 := Except.ok.inj h
          subst h2
          exact .cons ⟨rfl, rfl, Or.inr ⟨hrg, hmem, Or.inl rfl⟩⟩ htail
        · rename_i hmem
          have h2 := Except.ok.inj h
          subst h2
          exact .cons ⟨rfl, rfl, Or.inr ⟨hrg, by simp, Or.inr ⟨hmem, rfl⟩⟩⟩ htail
    · rename_i hrg
      split at h
      · cases h
      · rename_i rest2 hrest
        have h2 := Except.ok.inj h
        subst h2
        exact .cons ⟨rfl, rfl, Or.inl ⟨hrg, rfl⟩⟩ (ih hrest hnd2.2)

/-- removeLoop_f2: removeLoop relates every record to its updated form by
`remRel`. -/
theorem removeLoop_f2 {un gn : Str} :
    ∀ {gt : List GroupRec}, (all_groupnames gt).Nodup →
      List.Forall₂ (remRel un gn) gt (removeLoop un gn gt) := by
  intro gt
  induction gt with
  | nil =>
    intro _
    exact .nil
  | cons r rest ih =>
    intro hnd
    have hnd2 : (all_groupnames (r :: rest)).Nodup := hnd
    rw [show all_groupnames (r :: rest) = r.groupname :: all_groupnames rest from rfl,
      List.nodup_cons] at hnd2
    unfold removeLoop
    split
    · rename_i hrg
      have htail : List.Forall₂ (remRel un gn) rest rest := by
        rw [List.forall₂_same]
        intro x hx
        refine ⟨rfl, rfl, Or.inl ⟨?_, rfl⟩⟩
        intro hxg
        apply hnd2.1
        have hxm : x.groupname ∈ all_groupnames rest :=
          List.mem_map_of_mem (fun r2 => r2.groupname) hx
        rw [hrg, hxg.symm]
        exact hxm
      refine .cons ?_ htail
      split
      · rename_i hmem
        exact ⟨rfl, rfl, Or.inr ⟨hrg, Or.inr ⟨hmem, rfl⟩⟩⟩
      · rename_i hmem
        exact ⟨rfl, rfl, Or.inr ⟨hrg, Or.inl ⟨hmem, rfl⟩⟩⟩
    · rename_i hrg
      exact .cons ⟨rfl, rfl, Or.inl ⟨hrg, rfl⟩⟩ (ih hnd2.2)

/-- keepsG: how one pass of the team loop may transform a pre-existing group
record: names are preserved and the grouplist is unchanged or extended by the
user, the latter only for a requested team's record the user was not yet a
member of. -/
def keepsG (un : Str) (ts : List Str) (g g2 : GroupRec) : Prop :=
  g2.teamname = g.teamname ∧ g2.groupname = g.groupname ∧
  (g2.grouplist = g.grouplist ∨
    (g.teamname ∈ ts ∧ un ∉ g.grouplist ∧ g2.grouplist = g.grouplist ++ [un]))

/-- keepsG_refl: every record trivially keeps itself. -/
theorem keepsG_refl (un : Str) (ts : List Str) (g : GroupRec) : keepsG un ts g g :=
  ⟨rfl, rfl, Or.inl rfl⟩

/-- keepsG_mono: the relation is monotone in the team list. -/
theorem keepsG_mono {un : Str} {ts ts2 : List Str} (hsub : ∀ x ∈ ts, x ∈ ts2)
    {g g2 : GroupRec} (h : keepsG un ts g g2) : keepsG un ts2 g g2 := by
  obtain ⟨h1, h2, h3⟩ := h
  refine ⟨h1, h2, ?_⟩
  rcases h3 with h3 | ⟨hm, hn, he⟩
  · exact Or.inl h3
  · exact Or.inr ⟨hsub _ hm, hn, he⟩

/-- keepsG_comp: two successive keeps compose into one. -/
theorem keepsG_comp {un : Str} {ts : List Str} {a b c : GroupRec}
    (h1 : keepsG un ts a b) (h2 : keepsG un ts b c) : keepsG un ts a c := by
  obtain ⟨t1, n1, l1⟩ := h1
  obtain ⟨t2, n2, l2⟩ := h2
  refine ⟨t2.trans t1, n2.trans n1, ?_⟩
  rcases l1 with l1 | ⟨m1, u1, e1⟩
  · rcases l2 with l2 | ⟨m2, u2, e2⟩
    · exact Or.inl (l2.trans l1)
    · rw [t1] at m2
      rw [l1] at u2 e2
      exact Or.inr ⟨m2, u2, e2⟩
  · rcases l2 with l2 | ⟨m2, u2, e2⟩
    · rw [l2, e1]
      exact Or.inr ⟨m1, u1, rfl⟩
    · exfalso
      apply u2
      rw [e1]
      simp
  
/-- keepsG_mem: the user's membership is preserved by a keep. -/
theorem keepsG_mem {un un2 : Str} {ts : List Str} {g g2 : GroupRec}
    (h : keepsG un ts g g2) (hm : un2 ∈ g.grouplist) : un2 ∈ g2.grouplist := by
  rcases h.2.2 with h3 | ⟨_, _, h3⟩
  · rw [h3]
    exact hm
  · rw [h3]
    exact List.mem_append_left _ hm

/-- keepsG_nodup: a duplicate-free grouplist stays duplicate-free under a
keep. -/
theorem keepsG_nodup {un : Str} {ts : List Str} {g g2 : GroupRec}
    (h : keepsG un ts g g2) (hnd : g.grouplist.Nodup) : g2.grouplist.Nodup := by
  rcases h.2.2 with h3 | ⟨_, hu, h3⟩
  · rw [h3]
    exact hnd
  · rw [h3]
    exact nodup_append_one hnd hu

/-- addRel_keepsG: an addLoop update targeting a record with teamname in `ts`
is a keep. -/
theorem addRel_keepsG {un gn : Str} {ts : List Str} {g g2 : GroupRec}
    (h : addRel un gn g g2) (hts : g.groupname = gn → g.teamname ∈ ts) :
    keepsG un ts g g2 := by
  obtain ⟨t1, n1, l1⟩ := h
  refine ⟨t1, n1, ?_⟩
  rcases l1 with ⟨_, he⟩ | ⟨hg, _, he | ⟨hu, he⟩⟩
  · exact Or.inl he
  · exact Or.inl he
  · exact Or.inr ⟨hts hg, hu, he⟩

/-- add_member_f2: a successful add_member leaves users and the uuid stream
alone and transforms the group table record-wise by `addRel`. -/
theorem add_member_f2 {un gn : Str} {st st2 : St} (h : add_member un gn st = .ok st2)
    (hnd : (all_groupnames st.groups).Nodup) :
    st2.users = st.users ∧ st2.fresh = st.fresh ∧
    List.Forall₂ (addRel un gn) st.groups st2.groups ∧
    gn ∈ all_groupnames st.groups := by
  unfold add_member at h
  split at h
  · cases h
  · rename_i gt2 heq
    split at h
    · cases h
    · have h2 := Except.ok.inj h
      subst h2
      unfold add_user_to_group at heq
      split at heq
      · rename_i hge
        refine ⟨rfl, rfl, addLoop_f2 heq hnd, ?_⟩
        have hge2 : group_exist gn st.groups = true := hge
        rw [group_exist, decide_eq_true_iff] at hge2
        exact hge2
      · cases heq

/-- remove_member_f2: a successful remove_member leaves users and the uuid
stream alone and transforms the group table record-wise by `remRel`. -/
theorem remove_member_f2 {un gn : Str} {st st2 : St}
    (h : remove_member un gn st = .ok st2)
    (hnd : (all_groupnames st.groups).Nodup) :
    st2.users = st.users ∧ st2.fresh = st.fresh ∧
    List.Forall₂ (remRel un gn) st.groups st2.groups := by
  unfold remove_member at h
  split at h
  · cases h
  · rename_i gt2 heq
    split at h
    · cases h
    · have h2 := Except.ok.inj h
      subst h2
      unfold remove_user_from_group at heq
      split at heq
      · have h3 := Except.ok.inj heq
        subst h3
        exact ⟨rfl, rfl, removeLoop_f2 hnd⟩
      · cases heq

/-- create_new_group_spec: a successful team-path create_new_group (no
explicit groupname, gid, or existing names) appends exactly one fresh, empty
group record for a previously unknown teamname. -/
theorem create_new_group_spec {env : SpawnEnv} {t : Str} {gt : List GroupRec}
    {g : GroupRec} {gt2 : List GroupRec}
    (h : create_new_group env t none none (("group").data) none gt = .ok (g, gt2)) :
    gt2 = gt ++ [g] ∧ g.teamname = t ∧ g.grouplist = [] ∧
    g.groupname ∉ all_groupnames gt ∧ t ∉ all_teamnames gt := by
  unfold create_new_group at h
  dsimp only at h
  split at h
  · cases h
  · rename_i hte
    split at h
    · cases h
    · rename_i gn0 hgn0
      split at h
      · cases h
      · split at h
        · cases h
        · split at h
          · cases h
          · split at h
            · cases h
            · rename_i gn hgn
              have h2 := Except.ok.inj h
              have hg : _ = g := congrArg Prod.fst h2
              have hgt : _ = gt2 := congrArg Prod.snd h2
              subst hg
              subst hgt
              have hid := mkUbuntuName_ok hgn
              subst hid
              refine ⟨rfl, rfl, rfl, get_new_groupname_fresh hgn0, ?_⟩
              have hte2 : ¬(team_exist t gt = true) := hte
              rw [team_exist, decide_eq_true_iff] at hte2
              exact hte2

/-- addRel_nodup: an addLoop update keeps a duplicate-free grouplist
duplicate-free. -/
theorem addRel_nodup {un gn : Str} {g g2 : GroupRec} (h : addRel un gn g g2)
    (hnd : g.grouplist.Nodup) : g2.grouplist.Nodup := by
  rcases h.2.2 with ⟨_, he⟩ | ⟨_, _, he | ⟨hu, he⟩⟩
  · rw [he]; exact hnd
  · rw [he]; exact hnd
  · rw [he]; exact nodup_append_one hnd hu

/-- addRel_mem: an addLoop update preserves membership. -/
theorem addRel_mem {un gn un2 : Str} {g g2 : GroupRec} (h : addRel un gn g g2)
    (hm : un2 ∈ g.grouplist) : un2 ∈ g2.grouplist := by
  rcases h.2.2 with ⟨_, he⟩ | ⟨_, _, he | ⟨_, he⟩⟩
  · rw [he]; exact hm
  · rw [he]; exact hm
  · rw [he]; exact List.mem_append_left _ hm

/-- f2_imp_mem: weaken a Forall₂ pointwise, with access to left membership. -/
theorem f2_imp_mem {α β : Type} {R S : α → β → Prop} :
    ∀ {l1 : List α} {l2 : List β}, List.Forall₂ R l1 l2 →
      (∀ a ∈ l1, ∀ b, R a b → S a b) → List.Forall₂ S l1 l2 := by
  intro l1 l2 hf
  induction hf with
  | nil =>
    intro _
    exact .nil
  | cons hr hf2 ih =>
    intro himp
    exact .cons (himp _ (List.mem_cons_self _ _) _ hr)
      (ih (fun a ha b hab => himp a (List.mem_cons_of_mem _ ha) b hab))

/-- f2_append_left: a Forall₂ out of an appended list splits the right list. -/
theorem f2_append_left {α β : Type} {R : α → β → Prop} :
    ∀ {l1 l2 : List α} {l : List β}, List.Forall₂ R (l1 ++ l2) l →
      ∃ m1 m2, l = m1 ++ m2 ∧ List.Forall₂ R l1 m1 ∧ List.Forall₂ R l2 m2 := by
  intro l1
  induction l1 with
  | nil =>
    intro l2 l hf
    exact ⟨[], l, rfl, .nil, hf⟩
  | cons a l1 ih =>
    intro l2 l hf
    cases hf with
    | cons hr hf2 =>
      obtain ⟨m1, m2, rfl, hm1, hm2⟩ := ih hf2
      exact ⟨_ :: m1, m2, rfl, .cons hr hm1, hm2⟩

/-- groupname_unique: on a table with duplicate-free groupnames, records are
determined by their groupname. -/
theorem groupname_unique {gt : List GroupRec} (hnd : (all_groupnames gt).Nodup)
    {a b : GroupRec} (ha : a ∈ gt) (hb : b ∈ gt) (he : a.groupname = b.groupname) :
    a = b :=
  List.inj_on_of_nodup_map hnd ha hb he

/-- teamname_unique: on a table with duplicate-free teamnames, records are
determined by their teamname. -/
theorem teamname_unique {gt : List GroupRec} (hnd : (all_teamnames gt).Nodup)
    {a b : GroupRec} (ha : a ∈ gt) (hb : b ∈ gt) (he : a.teamname = b.teamname) :
    a = b :=
  List.inj_on_of_nodup_map hnd ha hb he

/-- sameG: a record unchanged in the fields the reconciliation argument
observes. -/
def sameG (g g2 : GroupRec) : Prop :=
  g2.teamname = g.teamname ∧ g2.groupname = g.groupname ∧ g2.grouplist = g.grouplist

/-- create_or_fetch_group_spec: one pass of the team loop keeps every
pre-existing record (`keepsG`), appends at most one new record (fresh names,
user included), and leaves the requested team's record holding the user. -/
theorem create_or_fetch_group_spec {env : SpawnEnv} {un t : Str} {s s2 : St}
    (h : create_or_fetch_group env un t s = .ok s2)
    (hgn : (all_groupnames s.groups).Nodup)
    (htn : (all_teamnames s.groups).Nodup)
    (hnd : ∀ g ∈ s.groups, g.grouplist.Nodup) :
    ∃ mid ext, s2.groups = mid ++ ext ∧
      List.Forall₂ (keepsG un [t]) s.groups mid ∧
      ext.length ≤ 1 ∧
      (∀ g ∈ ext, g.teamname = t ∧ un ∈ g.grouplist ∧ g.grouplist.Nodup ∧
        g.groupname ∉ all_groupnames s.groups ∧ t ∉ all_teamnames s.groups) ∧
      (∃ g ∈ s2.groups, g.teamname = t ∧ un ∈ g.grouplist) := by
  unfold create_or_fetch_group at h
  dsimp only at h
  split at h
  · rename_i hte
    split at h
    · exact absurd h (fun hh => Except.noConfusion hh)
    · rename_i group gt1 hcng
      repeat' split at h
      all_goals try exact absurd h (fun hh => Except.noConfusion hh)
      rename_i xm1 st3 hm1 xan an han xm2 st4 hm2
      have h2 := Except.ok.inj h
      subst h2
      obtain ⟨hgt1, htname, hglist, hfreshg, hfresht⟩ := create_new_group_spec hcng
      have hf2araw := add_member_f2 hm1 (by
        show (all_groupnames gt1).Nodup
        rw [hgt1]
        rw [show all_groupnames (s.groups ++ [group])
            = all_groupnames s.groups ++ [group.groupname] from by
          simp [all_groupnames]]
        exact nodup_append_one hgn hfreshg)
      have hf2a2 : List.Forall₂ (addRel un group.groupname)
          (s.groups ++ [group]) st3.groups := by
        rw [← hgt1]
        exact hf2araw.2.2.1
      have hndst3 : (all_groupnames st3.groups).Nodup := by
        have hmap := f2_map_eq (fun g => g.groupname) (fun a b hr => hr.2.1) hf2a2
        show (st3.groups.map (fun g => g.groupname)).Nodup
        rw [hmap]
        rw [show (s.groups ++ [group]).map (fun g => g.groupname)
            = all_groupnames s.groups ++ [group.groupname] from by
          simp [all_groupnames]]
        exact nodup_append_one hgn hfreshg
      have hf2b := (add_member_f2 hm2 hndst3).2.2.1
      obtain ⟨m1, m2, hst3eq, hfa1, hfa2⟩ := f2_append_left hf2a2
      rw [hst3eq] at hf2b
      obtain ⟨k1, k2, hst4eq, hfb1, hfb2⟩ := f2_append_left hf2b
      have hneq : ∀ g ∈ s.groups, g.groupname ≠ group.groupname := by
        intro g hgmem he
        exact hfreshg (he ▸ List.mem_map_of_mem (fun r => r.groupname) hgmem)
      have hsame1 : List.Forall₂ sameG s.groups m1 := by
        refine f2_imp_mem hfa1 ?_
        intro a ha b hab
        rcases hab.2.2 with ⟨_, he⟩ | ⟨heqg, _⟩
        · exact ⟨hab.1, hab.2.1, he⟩
        · exact absurd heqg (hneq a ha)
      have hsame2 : List.Forall₂ sameG m1 k1 := by
        refine f2_imp_mem hfb1 ?_
        intro b hb c hbc
        obtain ⟨a, ha, hsab⟩ := f2_mem_right hsame1 b hb
        rcases hbc.2.2 with ⟨_, he⟩ | ⟨heqg, _⟩
        · exact ⟨hbc.1, hbc.2.1, he⟩
        · rw [hsab.2.1] at heqg
          exact absurd heqg (hneq a ha)
      have hmid : List.Forall₂ (keepsG un [t]) s.groups k1 :=
        f2_trans (fun a b c hab hbc =>
          ⟨hbc.1.trans hab.1, hbc.2.1.trans hab.2.1, Or.inl (hbc.2.2.trans hab.2.2)⟩)
          hsame1 hsame2
      cases hfa2 with
      | cons hab htaila =>
        cases htaila
        rename_i b
        cases hfb2 with
        | cons hbc htailb =>
          cases htailb
          rename_i c
          have hbgl : un ∈ b.grouplist ∧ b.groupname = group.groupname ∧
              b.teamname = t ∧ b.grouplist.Nodup := by
            rcases hab.2.2 with ⟨hne, _⟩ | ⟨_, hmb, _⟩
            · exact absurd rfl hne
            · refine ⟨hmb, hab.2.1, hab.1.trans htname, addRel_nodup hab ?_⟩
              rw [hglist]
              exact List.nodup_nil
          have hcgl : un ∈ c.grouplist ∧ c.groupname = group.groupname ∧
              c.teamname = t ∧ c.grouplist.Nodup :=
            ⟨addRel_mem hbc hbgl.1, hbc.2.1.trans hbgl.2.1,
              hbc.1.trans hbgl.2.2.1, addRel_nodup hbc hbgl.2.2.2⟩
          refine ⟨k1, [c], hst4eq, hmid, by simp, ?_, ?_⟩
          · intro g hg
            rw [List.mem_singleton] at hg
            subst hg
            exact ⟨hcgl.2.2.1, hcgl.1, hcgl.2.2.2, hcgl.2.1 ▸ hfreshg, hfresht⟩
          · refine ⟨c, ?_, hcgl.2.2.1, hcgl.1⟩
            rw [hst4eq]
            exact List.mem_append_right _ (List.mem_singleton_self c)
  · rename_i hte
    split at h
    · exact absurd h (fun hh => Except.noConfusion hh)
    · rename_i group hggi
      obtain ⟨r, hrmem, hrteam, hrgn⟩ := get_group_info_teamname hggi
      repeat' split at h
      all_goals try exact absurd h (fun hh => Except.noConfusion hh)
      · rename_i members hgug hmem
        have h2 := Except.ok.inj h
        subst h2
        obtain ⟨r2, hr2mem, hr2gn, hmembers⟩ := get_users_of_group_spec hgug
        have hr2r : r2 = r := groupname_unique hgn hr2mem hrmem (hr2gn.trans hrgn)
        rw [hr2r] at hmembers
        refine ⟨s.groups, [], by simp, ?_, by simp, by simp, ?_⟩
        · rw [List.forall₂_same]
          intro x _
          exact keepsG_refl un [t] x
        · refine ⟨r, hrmem, hrteam, ?_⟩
          rw [← hmembers]
          exact hmem
      · rename_i members hgug hmem
        obtain ⟨hu, hfr, hf2, hgin⟩ := add_member_f2 h hgn
        refine ⟨s2.groups, [], by simp, ?_, by simp, by simp, ?_⟩
        · refine f2_imp_mem hf2 ?_
          intro a ha b hab
          refine addRel_keepsG hab ?_
          intro hgeq
          have har : a = r := groupname_unique hgn ha hrmem (hgeq.trans hrgn)
          rw [har, hrteam]
          exact List.mem_singleton_self t
        · obtain ⟨b, hbmem, hab⟩ := f2_mem_left hf2 r hrmem
          rcases hab.2.2 with ⟨hne, _⟩ | ⟨_, hmb, _⟩
          · exact absurd hrgn.symm hne
          · exact ⟨b, hbmem, hab.1.trans hrteam, hmb⟩

/-- teamsLoop_spec: the team loop keeps every pre-existing record (`keepsG`
over the requested teams), appends only fresh team records holding the user,
makes the user a member of every requested team's record, and preserves the
table invariants. -/
theorem teamsLoop_spec {env : SpawnEnv} {un : Str} :
    ∀ (ts : List Str) (s s2 : St), teamsLoop env un ts s = .ok s2 →
      (all_groupnames s.groups).Nodup →
      (all_teamnames s.groups).Nodup →
      (∀ g ∈ s.groups, g.grouplist.Nodup) →
      ∃ mid ext, s2.groups = mid ++ ext ∧
        List.Forall₂ (keepsG un ts) s.groups mid ∧
        (∀ g ∈ ext, g.teamname ∈ ts ∧ un ∈ g.grouplist ∧ g.grouplist.Nodup ∧
          g.groupname ∉ all_groupnames s.groups) ∧
        (∀ t2 ∈ ts, ∃ g ∈ s2.groups, g.teamname = t2 ∧ un ∈ g.grouplist) ∧
        (all_groupnames s2.groups).Nodup ∧
        (all_teamnames s2.groups).Nodup ∧
        (∀ g ∈ s2.groups, g.grouplist.Nodup) := by
  intro ts
  induction ts with
  | nil =>
    intro s s2 h hgn htn hnd
    have h2 : s = s2 := Except.ok.inj h
    subst h2
    refine ⟨s.groups, [], by simp, ?_, by simp, by simp, hgn, htn, hnd⟩
    rw [List.forall₂_same]
    intro x _
    exact keepsG_refl un [] x
  | cons t rest ih =>
    intro s s2 h hgn htn hnd
    unfold teamsLoop at h
    split at h
    · exact absurd h (fun hh => Except.noConfusion hh)
    · rename_i s1 hstep
      obtain ⟨mid1, ext1, hs1eq, hf1, hlen1, hext1, hmem1⟩ :=
        create_or_fetch_group_spec hstep hgn htn hnd
      have hmapg1 : mid1.map (fun g => g.groupname)
          = s.groups.map (fun g => g.groupname) :=
        f2_map_eq _ (fun a b hr => hr.2.1) hf1
      have hmapt1 : mid1.map (fun g => g.teamname)
          = s.groups.map (fun g => g.teamname) :=
        f2_map_eq _ (fun a b hr => hr.1) hf1
      have hgn1 : (all_groupnames s1.groups).Nodup := by
        rw [hs1eq]
        show ((mid1 ++ ext1).map (fun g => g.groupname)).Nodup
        rw [List.map_append, hmapg1]
        cases ext1 with
        | nil => simpa using hgn
        | cons c tl =>
          cases tl with
          | nil =>
            have hc := hext1 c (List.mem_cons_self c [])
            exact nodup_append_one hgn hc.2.2.2.1
          | cons d tl2 => simp at hlen1
      have htn1 : (all_teamnames s1.groups).Nodup := by
        rw [hs1eq]
        show ((mid1 ++ ext1).map (fun g => g.teamname)).Nodup
        rw [List.map_append, hmapt1]
        cases ext1 with
        | nil => simpa using htn
        | cons c tl =>
          cases tl with
          | nil =>
            have hc := hext1 c (List.mem_cons_self c [])
            refine nodup_append_one htn ?_
            rw [show (fun g : GroupRec => g.teamname) c = c.teamname from rfl, hc.1]
            exact hc.2.2.2.2
          | cons d tl2 => simp at hlen1
      have hnd1 : ∀ g ∈ s1.groups, g.grouplist.Nodup := by
        intro g hg
        rw [hs1eq] at hg
        rcases List.mem_append.mp hg with hg1 | hg2
        · obtain ⟨a, ha, hr⟩ := f2_mem_right hf1 g hg1
          exact keepsG_nodup hr (hnd a ha)
        · exact (hext1 g hg2).2.2.1
      obtain ⟨mid2, ext2, hs2eq, hf2, hext2, hmemr, hwfg, hwft, hwfl⟩ :=
        ih s1 s2 h hgn1 htn1 hnd1
      rw [hs1eq] at hf2
      obtain ⟨k1, k2, hmid2eq, hfk1, hfk2⟩ := f2_append_left hf2
      have hsub1 : ∀ x ∈ [t], x ∈ t :: rest := by
        intro x hx
        rw [List.mem_singleton] at hx
        rw [hx]
        exact List.mem_cons_self t rest
      have hsub2 : ∀ x ∈ rest, x ∈ t :: rest := fun x hx => List.mem_cons_of_mem t hx
      have hmid : List.Forall₂ (keepsG un (t :: rest)) s.groups k1 :=
        @f2_trans GroupRec (keepsG un [t]) (keepsG un rest) (keepsG un (t :: rest))
          (fun a b c h1 h2 =>
            keepsG_comp (keepsG_mono hsub1 h1) (keepsG_mono hsub2 h2))
          s.groups mid1 k1 hf1 hfk1
      have hnamesub : ∀ x, x ∈ all_groupnames s.groups → x ∈ all_groupnames s1.groups := by
        intro x hx
        rw [hs1eq]
        show x ∈ (mid1 ++ ext1).map (fun g => g.groupname)
        rw [List.map_append, hmapg1]
        exact List.mem_append_left _ hx
      refine ⟨k1, k2 ++ ext2, ?_, hmid, ?_, ?_, hwfg, hwft, hwfl⟩
      · rw [hs2eq, hmid2eq, List.append_assoc]
      · intro g hg
        rcases List.mem_append.mp hg with hg1 | hg2
        · obtain ⟨e1, he1, hr⟩ := f2_mem_right hfk2 g hg1
          have he1x := hext1 e1 he1
          refine ⟨?_, keepsG_mem hr he1x.2.1, keepsG_nodup hr he1x.2.2.1, ?_⟩
          · rw [hr.1, he1x.1]
            exact List.mem_cons_self t rest
          · rw [hr.2.1]
            exact he1x.2.2.2.1
        · have hx := hext2 g hg2
          refine ⟨List.mem_cons_of_mem t hx.1, hx.2.1, hx.2.2.1, ?_⟩
          intro hcontra
          exact hx.2.2.2 (hnamesub _ hcontra)
      · intro t2 ht2
        rcases List.mem_cons.mp ht2 with ht2a | ht2b
        · subst ht2a
          obtain ⟨g0, hg0, hg0t, hg0m⟩ := hmem1
          obtain ⟨g1, hg1, hr⟩ := f2_mem_left hf2 g0 (by rw [← hs1eq]; exact hg0)
          refine ⟨g1, ?_, hr.1.trans hg0t, keepsG_mem hr hg0m⟩
          rw [hs2eq]
          exact List.mem_append_left _ hg1
        · exact hmemr t2 ht2b

/-- reconRel: the cumulative effect of the reconciliation loop on one record:
names preserved; the grouplist unchanged (with a reason: kept name, never
visited, or user absent) or with the user erased (only for unkept names). -/
def reconRel (un : Str) (K gns : List Str) (g g2 : GroupRec) : Prop :=
  g2.teamname = g.teamname ∧ g2.groupname = g.groupname ∧
  ((g2.grouplist = g.grouplist ∧
     (g.groupname ∈ K ++ [un] ∨ g.groupname ∉ gns ∨ un ∉ g.grouplist)) ∨
   (g.groupname ∉ K ++ [un] ∧ g2.grouplist = g.grouplist.erase un))

/-- reconcileLoop_spec: the reconciliation loop transforms the table
record-wise by `reconRel`. -/
theorem reconcileLoop_spec {un : Str} {K : List Str} :
    ∀ (gns : List Str) (s s2 : St), reconcileLoop un K gns s = .ok s2 →
      (all_groupnames s.groups).Nodup →
      (∀ g ∈ s.groups, g.grouplist.Nodup) →
      List.Forall₂ (reconRel un K gns) s.groups s2.groups := by
  intro gns
  induction gns with
  | nil =>
    intro s s2 h hgn hnd
    have h2 : s = s2 := Except.ok.inj h
    subst h2
    rw [List.forall₂_same]
    intro x _
    exact ⟨rfl, rfl, Or.inl ⟨rfl, Or.inr (Or.inl (by simp))⟩⟩
  | cons gn rest ih =>
    intro s s2 h hgn hnd
    unfold reconcileLoop at h
    split at h
    · rename_i hskip
      have hf := ih s s2 h hgn hnd
      refine f2_imp_mem hf ?_
      intro a _ b hab
      obtain ⟨ht, hn, hcase⟩ := hab
      refine ⟨ht, hn, ?_⟩
      rcases hcase with ⟨he, hcond⟩ | hrest
      · refine Or.inl ⟨he, ?_⟩
        rcases hcond with hc | hc | hc
        · exact Or.inl hc
        · by_cases hgnc : a.groupname = gn
          · exact Or.inl (hgnc ▸ hskip)
          · refine Or.inr (Or.inl ?_)
            intro hmem
            rcases List.mem_cons.mp hmem with h1 | h1
            · exact hgnc h1
            · exact hc h1
        · exact Or.inr (Or.inr hc)
      · exact Or.inr hrest
    · rename_i hskip
      split at h
      · exact absurd h (fun hh => Except.noConfusion hh)
      · rename_i s1 hrm
        obtain ⟨hu1, hfr1, hf1⟩ := remove_member_f2 hrm hgn
        have hgn1 : (all_groupnames s1.groups).Nodup := by
          have hmap := f2_map_eq (fun g => g.groupname) (fun a b hr => hr.2.1) hf1
          show (s1.groups.map (fun g => g.groupname)).Nodup
          rw [hmap]
          exact hgn
        have hnd1 : ∀ g ∈ s1.groups, g.grouplist.Nodup := by
          intro g hg
          obtain ⟨a, ha, hr⟩ := f2_mem_right hf1 g hg
          rcases hr.2.2 with ⟨_, he⟩ | ⟨_, ⟨_, he⟩ | ⟨_, he⟩⟩
          · rw [he]; exact hnd a ha
          · rw [he]; exact hnd a ha
          · rw [he]; exact (hnd a ha).erase un
        have hf2 := ih s1 s2 h hgn1 hnd1
        have hf1' : List.Forall₂ (fun a b => remRel un gn a b ∧ a.grouplist.Nodup)
            s.groups s1.groups :=
          f2_imp_mem hf1 (fun a ha b hab => ⟨hab, hnd a ha⟩)
        refine @f2_trans GroupRec _ _ (reconRel un K (gn :: rest))
          ?_ s.groups s1.groups s2.groups hf1' hf2
        intro a b c hab hbc
        obtain ⟨⟨ht1, hn1, hcase1⟩, handnd⟩ := hab
        obtain ⟨ht2, hn2, hcase2⟩ := hbc
        refine ⟨ht2.trans ht1, hn2.trans hn1, ?_⟩
        rcases hcase1 with ⟨hne1, he1⟩ | ⟨heq1, hsub1⟩
        · rcases hcase2 with ⟨he2, hcond2⟩ | ⟨hnk2, he2⟩
          · refine Or.inl ⟨he2.trans he1, ?_⟩
            rcases hcond2 with hc | hc | hc
            · exact Or.inl (hn1 ▸ hc)
            · refine Or.inr (Or.inl ?_)
              intro hmem
              rcases List.mem_cons.mp hmem with h1 | h1
              · exact hne1 h1
              · exact hc (by rw [hn1]; exact h1)
            · exact Or.inr (Or.inr (by rw [← he1]; exact hc))
          · refine Or.inr ⟨?_, by rw [he2, he1]⟩
            rw [← hn1]
            exact hnk2
        · rcases hsub1 with ⟨hnm1, he1⟩ | ⟨hm1, he1⟩
          · rcases hcase2 with ⟨he2, _⟩ | ⟨hnk2, he2⟩
            · exact Or.inl ⟨he2.trans he1, Or.inr (Or.inr hnm1)⟩
            · refine Or.inr ⟨?_, ?_⟩
              · rw [← hn1]
                exact hnk2
              · rw [he2, he1]
          · have hnk : a.groupname ∉ K ++ [un] := by
              rw [heq1]
              exact hskip
            rcases hcase2 with ⟨he2, _⟩ | ⟨_, he2⟩
            · exact Or.inr ⟨hnk, he2.trans he1⟩
            · refine Or.inr ⟨hnk, ?_⟩
              rw [he2, he1]
              rw [List.erase_of_not_mem]
              intro hcontra
              rw [List.Nodup.mem_erase_iff handnd] at hcontra
              exact hcontra.1 rfl

/-- teamnames_to_groupnames_spec: the computed kept-set is exactly the
groupnames of the requested teams' records. -/
theorem teamnames_to_groupnames_spec :
    ∀ (ts : List Str) (gt : List GroupRec) (tg : List Str),
      teamnames_to_groupnames ts gt = .ok tg →
      (∀ gn ∈ tg, ∃ t2 ∈ ts, ∃ r ∈ gt, r.teamname = t2 ∧ r.groupname = gn) ∧
      (∀ t2 ∈ ts, ∃ r ∈ gt, r.teamname = t2 ∧ r.groupname ∈ tg) := by
  intro ts
  induction ts with
  | nil =>
    intro gt tg h
    have h2 : [] = tg := Except.ok.inj h
    subst h2
    exact ⟨fun gn hgn => absurd hgn (List.not_mem_nil gn),
      fun t2 ht2 => absurd ht2 (List.not_mem_nil t2)⟩
  | cons t rest ih =>
    intro gt tg h
    unfold teamnames_to_groupnames at h
    split at h
    · exact absurd h (fun hh => Except.noConfusion hh)
    · rename_i g hggi
      split at h
      · exact absurd h (fun hh => Except.noConfusion hh)
      · rename_i gns2 hrec
        have h2 := Except.ok.inj h
        subst h2
        obtain ⟨r, hrmem, hrteam, hrgn⟩ := get_group_info_teamname hggi
        obtain ⟨ihf, ihb⟩ := ih gt gns2 hrec
        constructor
        · intro gn hgn
          rcases List.mem_cons.mp hgn with h1 | h1
          · exact ⟨t, List.mem_cons_self t rest, r, hrmem, hrteam, by rw [← hrgn, h1]⟩
          · obtain ⟨t2, ht2, r2, hr2, hr2t, hr2g⟩ := ihf gn h1
            exact ⟨t2, List.mem_cons_of_mem t ht2, r2, hr2, hr2t, hr2g⟩
        · intro t2 ht2
          rcases List.mem_cons.mp ht2 with h1 | h1
          · refine ⟨r, hrmem, by rw [hrteam, h1], ?_⟩
            rw [← hrgn]
            exact List.mem_cons_self g.groupname gns2
          · obtain ⟨r2, hr2, hr2t, hr2g⟩ := ihb t2 h1
            exact ⟨r2, hr2, hr2t, List.mem_cons_of_mem _ hr2g⟩

/-- get_groups_of_user_mem: a group holding the user contributes its
groupname. -/
theorem get_groups_of_user_mem {un : Str} {gt : List GroupRec} {g : GroupRec}
    (hg : g ∈ gt) (hm : un ∈ g.grouplist) :
    g.groupname ∈ get_groups_of_user un gt := by
  unfold get_groups_of_user
  have hmemf : g ∈ gt.filter (fun r => decide (un ∈ r.grouplist)) := by
    rw [List.mem_filter]
    exact ⟨hg, by simpa using hm⟩
  exact List.mem_map_of_mem (fun r => r.groupname) hmemf

/-- remove_obsolete_spec: remove_obsolete_group_memberships computes the
teams' groupnames and runs the reconciliation loop over the user's current
groups. -/
theorem remove_obsolete_spec {un : Str} {teams : List Str} {s s2 : St}
    (h : remove_obsolete_group_memberships un teams s = .ok s2)
    (hgn : (all_groupnames s.groups).Nodup)
    (hnd : ∀ g ∈ s.groups, g.grouplist.Nodup) :
    ∃ tg, teamnames_to_groupnames teams s.groups = .ok tg ∧
      List.Forall₂ (reconRel un tg (get_groups_of_user un s.groups))
        s.groups s2.groups := by
  unfold remove_obsolete_group_memberships at h
  split at h
  · exact absurd h (fun hh => Except.noConfusion hh)
  · rename_i tg htg
    exact ⟨tg, htg, reconcileLoop_spec _ s s2 h hgn hnd⟩

/-- create_or_fetch_user_fetch: for an existing user the fetch path returns
the state unchanged. -/
theorem create_or_fetch_user_fetch {env : SpawnEnv} {uu ez : Str} {s : St}
    {r : Str × Nat} {s2 : St}
    (hex : user_exist uu (("uuid").data) s.users = .ok true)
    (h : create_or_fetch_user env uu ez s = .ok (r, s2)) : s2 = s := by
  unfold create_or_fetch_user at h
  rw [hex] at h
  dsimp only at h
  rw [if_neg (by simp)] at h
  repeat' split at h
  all_goals try exact absurd h (fun hh => Except.noConfusion hh)
  have h2 := Except.ok.inj h
  exact (congrArg Prod.snd h2).symm

/-- preSpawn_spec: a successful pre-guard phase decomposes into its three
stages. -/
theorem preSpawn_spec {env : SpawnEnv} {uu ez : Str} {teams : List Str} {s : St}
    {r : Str × Nat} {st3 : St}
    (h : preSpawn env uu ez teams s = .ok (r, st3)) :
    ∃ stA stB, create_or_fetch_user env uu ez s = .ok (r, stA) ∧
      teamsLoop env r.1 teams stA = .ok stB ∧
      remove_obsolete_group_memberships r.1 teams stB = .ok st3 := by
  unfold preSpawn at h
  repeat' split at h
  all_goals try exact absurd h (fun hh => Except.noConfusion hh)
  rename_i xa username uid stA hcofu xb stB hloop xc st3b hrob
  have h2 := Except.ok.inj h
  have hr : (username, uid) = r := congrArg Prod.fst h2
  have hs : st3b = st3 := congrArg Prod.snd h2
  subst hs
  subst hr
  exact ⟨stA, stB, hcofu, hloop, hrob⟩

/-- locked_spec: a successful locked call is a successful pre-guard phase; the
later phases only read the resulting state, which is returned unchanged. -/
theorem locked_spec {env : SpawnEnv} {uu ez atm : Str} {teams : List Str} {s : St}
    {info : SpawnInfo} {s2 : St}
    (h : locked_get_spawn_info env uu ez atm teams s = .ok (info, s2)) :
    ∃ uid, preSpawn env uu ez teams s = .ok ((info.username, uid), s2) := by
  unfold locked_get_spawn_info at h
  dsimp only at h
  repeat' split at h
  all_goals try exact absurd h (fun hh => Except.noConfusion hh)
  rename_i xa username uid st1p hpre xb te hte xc ginfo hgi xd gids hgids
  have h2 := Except.ok.inj h
  have hi : _ = info := congrArg Prod.fst h2
  have hs : st1p = s2 := congrArg Prod.snd h2
  subst hs
  subst hi
  exact ⟨uid, hpre⟩

/-- C3: membership reconciliation makes the requested team list
authoritative.  For an existing user, after a successful call the user is a
member of every requested team's group; a group holds the user exactly when
its teamname was requested or it is the user's personal group (groupname
equal to the username) and already held the user before the call; and every
pre-existing group record survives with its names intact (memberships in
unrequested groups are revoked, the records themselves are not deleted).
Well-formedness of the stored table (unique groupnames, unique teamnames,
duplicate-free member lists) is the documented invariant of the rosetta
store. -/
theorem c3_membership_reconciliation (env : SpawnEnv) (uu ez atm : Str)
    (teams : List Str) (st : St) (info : SpawnInfo) (st1 : St)
    (hex : user_exist uu (("uuid").data) st.users = .ok true)
    (hgn : (all_groupnames st.groups).Nodup)
    (htn : (all_teamnames st.groups).Nodup)
    (hnd : ∀ g ∈ st.groups, g.grouplist.Nodup)
    (hok : locked_get_spawn_info env uu ez atm teams st = .ok (info, st1)) :
    (∀ t ∈ teams, ∃ g ∈ st1.groups, g.teamname = t ∧ info.username ∈ g.grouplist)
    ∧ (∀ g ∈ st1.groups, (info.username ∈ g.grouplist ↔
        (g.teamname ∈ teams ∨ (g.groupname = info.username ∧
          ∃ g0 ∈ st.groups, g0.groupname = g.groupname ∧
            info.username ∈ g0.grouplist))))
    ∧ (∀ g0 ∈ st.groups, ∃ g ∈ st1.groups, g.groupname = g0.groupname ∧
        g.teamname = g0.teamname) := by
  obtain ⟨uid, hpre⟩ := locked_spec hok
  obtain ⟨stA, stB, hcofu, hloopr, hrobr⟩ := preSpawn_spec hpre
  have hsa : stA = st := create_or_fetch_user_fetch hex hcofu
  subst hsa
  have hloop : teamsLoop env info.username teams stA = .ok stB := hloopr
  have hrob : remove_obsolete_group_memberships info.username teams stB = .ok st1 :=
    hrobr
  obtain ⟨mid, ext, hBeq, hfK, hextP, hmemT, hgnB, htnB, hndB⟩ :=
    teamsLoop_spec teams stA stB hloop hgn htn hnd
  obtain ⟨tg, htg, hfR⟩ := remove_obsolete_spec hrob hgnB hndB
  obtain ⟨htgF, htgB⟩ := teamnames_to_groupnames_spec teams stB.groups tg htg
  have hTG1 : ∀ gB ∈ stB.groups, gB.groupname ∈ tg → gB.teamname ∈ teams := by
    intro gB hgB htgmem
    obtain ⟨t2, ht2, r, hrmem, hrteam, hrgn⟩ := htgF _ htgmem
    have hr : r = gB := groupname_unique hgnB hrmem hgB hrgn
    rw [← hr, hrteam]
    exact ht2
  have hTG2 : ∀ gB ∈ stB.groups, gB.teamname ∈ teams → gB.groupname ∈ tg := by
    intro gB hgB hteam
    obtain ⟨r, hrmem, hrteam, hrg⟩ := htgB _ hteam
    have hr : r = gB := teamname_unique htnB hrmem hgB hrteam
    rw [← hr]
    exact hrg
  refine ⟨?_, ?_, ?_⟩
  · intro t ht
    obtain ⟨gB, hgB, hgBt, hgBm⟩ := hmemT t ht
    obtain ⟨gC, hgC, hrel⟩ := f2_mem_left hfR gB hgB
    rcases hrel.2.2 with ⟨he, _⟩ | ⟨hnk, _⟩
    · refine ⟨gC, hgC, hrel.1.trans hgBt, ?_⟩
      rw [he]
      exact hgBm
    · exfalso
      apply hnk
      refine List.mem_append_left _ ?_
      exact hTG2 gB hgB (by rw [hgBt]; exact ht)
  · intro gC hgC
    obtain ⟨gB, hgB, hrel⟩ := f2_mem_right hfR gC hgC
    constructor
    · intro hmemC
      rcases hrel.2.2 with ⟨he, hreason⟩ | ⟨hnk, he⟩
      · have hmemB : info.username ∈ gB.grouplist := by
          rw [← he]
          exact hmemC
        have hgBsplit := hgB
        rw [hBeq] at hgBsplit
        rcases List.mem_append.mp hgBsplit with hmid | hext
        · obtain ⟨g0, hg0, hkeep⟩ := f2_mem_right hfK gB hmid
          rcases hkeep.2.2 with hlist | ⟨hteamin, _, _⟩
          · have hmem0 : info.username ∈ g0.grouplist := by
              rw [← hlist]
              exact hmemB
            rcases hreason with hin | hnot | hnot
            · rcases List.mem_append.mp hin with hin1 | hin2
              · refine Or.inl ?_
                rw [hrel.1]
                exact hTG1 gB hgB hin1
              · rw [List.mem_singleton] at hin2
                refine Or.inr ⟨hrel.2.1.trans hin2, g0, hg0, ?_, hmem0⟩
                exact (hrel.2.1.trans hkeep.2.1).symm
            · exact absurd (get_groups_of_user_mem hgB hmemB) hnot
            · exact absurd hmemB hnot
          · refine Or.inl ?_
            rw [hrel.1, hkeep.1]
            exact hteamin
        · have hx := hextP gB hext
          refine Or.inl ?_
          rw [hrel.1]
          exact hx.1
      · exfalso
        have hcontra : info.username ∈ gB.grouplist.erase info.username := by
          rw [← he]
          exact hmemC
        rw [List.Nodup.mem_erase_iff (hndB gB hgB)] at hcontra
        exact hcontra.1 rfl
    · intro hdisj
      rcases hdisj with hteam | ⟨hgname, g0t, hg0t, hg0name, hg0mem⟩
      · obtain ⟨g2, hg2, hg2t, hg2m⟩ := hmemT gC.teamname hteam
        have heq2 : g2 = gB := teamname_unique htnB hg2 hgB (hg2t.trans hrel.1)
        rw [heq2] at hg2m
        rcases hrel.2.2 with ⟨he, _⟩ | ⟨hnk, _⟩
        · rw [he]
          exact hg2m
        · exfalso
          apply hnk
          refine List.mem_append_left _ ?_
          refine hTG2 gB hgB ?_
          rw [← hrel.1]
          exact hteam
      · have hBn : gB.groupname = info.username := hrel.2.1.symm.trans hgname
        have hgBsplit := hgB
        rw [hBeq] at hgBsplit
        rcases List.mem_append.mp hgBsplit with hmid | hext
        · obtain ⟨g0, hg0, hkeep⟩ := f2_mem_right hfK gB hmid
          have h00 : g0 = g0t :=
            groupname_unique hgn hg0 hg0t
              (hkeep.2.1.symm.trans (hg0name.trans hrel.2.1).symm)
          have hmemB : info.username ∈ gB.grouplist := by
            refine keepsG_mem hkeep ?_
            rw [h00]
            exact hg0mem
          rcases hrel.2.2 with ⟨he, _⟩ | ⟨hnk, _⟩
          · rw [he]
            exact hmemB
          · exfalso
            apply hnk
            refine List.mem_append_right _ ?_
            rw [hBn]
            exact List.mem_singleton_self info.username
        · have hx := hextP gB hext
          exfalso
          apply hx.2.2.2
          rw [show gB.groupname = g0t.groupname from (hg0name.trans hrel.2.1).symm]
          exact List.mem_map_of_mem (fun r => r.groupname) hg0t
  · intro g0 hg0
    obtain ⟨gB, hgB, hkeep⟩ := f2_mem_left hfK g0 hg0
    have hgBmem : gB ∈ stB.groups := by
      rw [hBeq]
      exact List.mem_append_left _ hgB
    obtain ⟨gC, hgC, hrel⟩ := f2_mem_left hfR gB hgBmem
    exact ⟨gC, hgC, hrel.2.1.trans hkeep.2.1, hrel.1.trans hkeep.1⟩

/-- c3Admin: the admin user of team `teama`. -/
def c3Admin : UserRec :=
  { username := ("teama-admin").data, password := ("x").data, uid := 60000, gid := 60000,
    descr := [], home := ("/home/teama-admin").data, shell := ("/bin/bash").data,
    uuid := ("cccccccc-bbbb-cccc-dddd-eeeeeeeeeeee").data, ezid := ("teama-admin").data,
    status := ("active").data, usertype := ("group").data }

/-- c3GroupBob: bob's personal group. -/
def c3GroupBob : GroupRec :=
  { teamname := ("bob").data, groupname := ("bob").data, password := ("x").data,
    gid := 1001, grouplist := [("bob").data],
    status := ("active").data, usertype := ("individual").data }

/-- c3GroupA: team `teama`, bob a member. -/
def c3GroupA : GroupRec :=
  { teamname := ("teama").data, groupname := ("teama").data, password := ("x").data,
    gid := 60000, grouplist := [("bob").data, ("teama-admin").data],
    status := ("active").data, usertype := ("group").data }

/-- c3GroupB: team `teamb`, bob a member. -/
def c3GroupB : GroupRec :=
  { teamname := ("teamb").data, groupname := ("teamb").data, password := ("x").data,
    gid := 60001, grouplist := [("bob").data],
    status := ("active").data, usertype := ("group").data }

/-- c3GroupC: team `teamc`, bob a member. -/
def c3GroupC : GroupRec :=
  { teamname := ("teamc").data, groupname := ("teamc").data, password := ("x").data,
    gid := 60002, grouplist := [("bob").data],
    status := ("active").data, usertype := ("group").data }

/-- c3St: bob exists and is a member of his personal group and of teams
`teama`, `teamb`, `teamc`. -/
def c3St : St := ⟨[demoUserB, c3Admin], [c3GroupBob, c3GroupA, c3GroupB, c3GroupC], 0⟩

/-- Witness for C3: calling with `teams=[teama,teamd]` for bob (member of
`{teama,teamb,teamc}`) succeeds; afterwards bob is a member of the newly
created `teamd` group, is no longer a member of `teamb` (and symmetrically
`teamc`), and his personal-group membership is untouched. -/
theorem c3_witness :
    ∃ (info : SpawnInfo) (st1 : St),
      locked_get_spawn_info demoEnv (("bbbbbbbb-bbbb-cccc-dddd-eeeeeeeeeeee").data)
        (("bob").data) (("teama").data) [("teama").data, ("teamd").data] c3St
        = .ok (info, st1)
      ∧ (∃ g ∈ st1.groups, g.teamname = ("teamd").data ∧ info.username ∈ g.grouplist)
      ∧ (∀ g ∈ st1.groups, g.groupname = ("teamb").data → info.username ∉ g.grouplist)
      ∧ (∃ g ∈ st1.groups, g.groupname = ("bob").data ∧ info.username ∈ g.grouplist) := by
  refine ⟨_, _, rfl, ?_, ?_, ?_⟩
  · have h := c3_membership_reconciliation demoEnv
      (("bbbbbbbb-bbbb-cccc-dddd-eeeeeeeeeeee").data) (("bob").data) (("teama").data)
      [("teama").data, ("teamd").data] c3St _ _
      (by rfl) (by decide) (by decide) (by decide) (by rfl)
    exact h.1 (("teamd").data) (by simp)
  · decide
  · have h := c3_membership_reconciliation demoEnv
      (("bbbbbbbb-bbbb-cccc-dddd-eeeeeeeeeeee").data) (("bob").data) (("teama").data)
      [("teama").data, ("teamd").data] c3St _ _
      (by rfl) (by decide) (by decide) (by decide) (by rfl)
    obtain ⟨g, hg, hgname, hgteam⟩ := h.2.2 c3GroupBob (by decide)
    have hmem := (h.2.1 g hg).mpr (Or.inr ⟨by rw [hgname]; rfl,
      c3GroupBob, by decide, hgname.symm, by decide⟩)
    exact ⟨g, hg, by rw [hgname]; rfl, hmem⟩
